import Mathlib

/-!
The packet codec, the ack waiter, the handlers and the client of gosocketio.

A shallow embedding of `internal/protocol` (decode.go, encode.go, protocol.go),
of `ack/ack.go`, of listener.go and convert.go, of the listeners, `send` and
`Ack` of namespace.go, and of the handlers, the dispatch, `dial` and `Close`
of client.go.  The definitions come first, each under the name of the source
function it follows; the lemmas and the claims `C1`, `C2`, ... come after
them.

Conventions of the embedding

* A Go `string` or `[]byte` is a list of bytes, `Bytes`; a byte is a natural
  number below 256.  No definition depends on that bound, so the theorems
  are stated for arbitrary lists.  A nil `[]byte` and an empty one are both `[]`.
* A Go `int` is an `Int`; the platform is taken to be a 64-bit one where
  its range matters (`strconv.Atoi`).
* A run-time panic (a slice expression out of range) is `none` in the outer
  `Option` of a result.
* Go's `for i, c := range s` over a string walks UTF-8 sequences, not bytes;
  `rangeString` reproduces this with `decodeRune`.
* The standard library is modelled where the code calls it: `strconv.Atoi`,
  `strings.IndexByte`, `fmt`'s `%v` of an `int`, the string encoder of
  `encoding/json`, and the built-in map.  A value handed to `json.Marshal` is
  represented by the JSON text it gives, or by the error.
* What the surroundings do (the outcome of a write, of the `select` in
  `Ack`) is an argument of the function concerned.
-/

namespace GoSocketIO

/-! ## Bytes and strings -/

/-- A Go string: its bytes. -/
abbrev Bytes := List Nat

/-- The bytes of an ASCII literal (only ever applied to ASCII text). -/
def ascii (s : String) : Bytes := s.data.map Char.toNat

/-- The byte `,`. -/
abbrev chComma : Nat := 44
/-- The byte `"`. -/
abbrev chQuote : Nat := 34
/-- The byte `[`. -/
abbrev chLBracket : Nat := 91
/-- The byte `]`. -/
abbrev chRBracket : Nat := 93
/-- The byte `-`. -/
abbrev chMinus : Nat := 45
/-- The byte `+`. -/
abbrev chPlus : Nat := 43
/-- The byte `0`. -/
abbrev chZero : Nat := 48
/-- The byte `\`. -/
abbrev chBackslash : Nat := 92

/-- Go's slice expression `s[lo:hi]`; it panics unless `lo ≤ hi ≤ len(s)`. -/
def slice (s : Bytes) (lo hi : Nat) : Option Bytes :=
  if lo ≤ hi ∧ hi ≤ s.length then some ((s.take hi).drop lo) else none

/-- Go's slice expression `s[lo:]`. -/
def sliceFrom (s : Bytes) (lo : Nat) : Option Bytes := slice s lo s.length

/-- The rune `utf8.RuneError`, U+FFFD. -/
def runeError : Nat := 0xFFFD

/-- One step of Go's UTF-8 decoding (`runtime.decoderune`, and
`utf8.DecodeRuneInString` on a non-empty string): the rune that starts at the
head of `s` and the number of bytes it takes.  An ill-formed sequence gives
`(runeError, 1)`. -/
def decodeRune : Bytes → Nat × Nat
  | [] => (runeError, 1)
  | b0 :: rest =>
    if b0 < 0x80 then (b0, 1)
    else if 0xC0 ≤ b0 ∧ b0 < 0xE0 then
      match rest with
      | b1 :: _ =>
        if 0x80 ≤ b1 ∧ b1 ≤ 0xBF then
          let r := ((b0 &&& 0x1F) <<< 6) ||| (b1 &&& 0x3F)
          if 0x7F < r then (r, 2) else (runeError, 1)
        else (runeError, 1)
      | _ => (runeError, 1)
    else if 0xE0 ≤ b0 ∧ b0 < 0xF0 then
      match rest with
      | b1 :: b2 :: _ =>
        if (0x80 ≤ b1 ∧ b1 ≤ 0xBF) ∧ (0x80 ≤ b2 ∧ b2 ≤ 0xBF) then
          let r := ((b0 &&& 0x0F) <<< 12) ||| ((b1 &&& 0x3F) <<< 6) ||| (b2 &&& 0x3F)
          if 0x7FF < r ∧ ¬ (0xD800 ≤ r ∧ r ≤ 0xDFFF) then (r, 3) else (runeError, 1)
        else (runeError, 1)
      | _ => (runeError, 1)
    else if 0xF0 ≤ b0 ∧ b0 < 0xF8 then
      match rest with
      | b1 :: b2 :: b3 :: _ =>
        if (0x80 ≤ b1 ∧ b1 ≤ 0xBF) ∧ (0x80 ≤ b2 ∧ b2 ≤ 0xBF) ∧ (0x80 ≤ b3 ∧ b3 ≤ 0xBF) then
          let r := ((b0 &&& 0x07) <<< 18) ||| ((b1 &&& 0x3F) <<< 12) |||
            ((b2 &&& 0x3F) <<< 6) ||| (b3 &&& 0x3F)
          if 0xFFFF < r ∧ r ≤ 0x10FFFF then (r, 4) else (runeError, 1)
        else (runeError, 1)
      | _ => (runeError, 1)
    else (runeError, 1)

/-- The pairs `(i, c)` that `for i, c := range s` produces, for the part of
the string that starts at byte offset `i`; `skip` counts the bytes that still
belong to the rune read last. -/
def rangeFrom : Nat → Nat → Bytes → List (Nat × Nat)
  | _, _, [] => []
  | i, skip + 1, _ :: bs => rangeFrom (i + 1) skip bs
  | i, 0, b :: bs => (i, (decodeRune (b :: bs)).1) :: rangeFrom (i + 1) ((decodeRune (b :: bs)).2 - 1) bs

/-- The pairs `(i, c)` of Go's `for i, c := range s`. -/
def rangeString (s : Bytes) : List (Nat × Nat) := rangeFrom 0 0 s

/-- A pair of `rangeString` whose rune is an ASCII one. -/
def isASCII (p : Nat × Nat) : Bool := decide (p.2 < 128)

/-- Go's `strings.IndexByte`, with `none` for `-1`. -/
def indexByte : Bytes → Nat → Option Nat
  | [], _ => none
  | b :: bs, c => if b = c then some 0 else (indexByte bs c).map (· + 1)

/-! ## protocol.go -/

/-- The event name `"connection"`. -/
def OnConnection : Bytes := ascii "connection"
/-- The event name `"disconnect"`. -/
def OnDisconnect : Bytes := ascii "disconnect"
/-- The event name `"error"`. -/
def OnError : Bytes := ascii "error"

def MessageTypeOpen : Bytes := ascii "0"
def MessageTypeClose : Bytes := ascii "1"
def MessageTypePing : Bytes := ascii "2"
def MessageTypePong : Bytes := ascii "3"
def MessageTypeEmpty : Bytes := ascii "empty"
def MessageTypeEmit : Bytes := ascii "emit"
def MessageTypeAckRequest : Bytes := ascii "ack_request"
def MessageTypeAckResponse : Bytes := ascii "ack_response"
def MessageTypeNamespace : Bytes := ascii "namespace"
def MessageTypeError : Bytes := ascii "error"

def EmptyMessage : Bytes := ascii "40"
def NamespaceClose : Bytes := ascii "41"
def CommonMessage : Bytes := ascii "42"
def AckMessage : Bytes := ascii "43"
def ErrorMessage : Bytes := ascii "44"
def OpenMessage : Bytes := ascii "0"
def CloseMessage : Bytes := ascii "1"
def PingMessage : Bytes := ascii "2"
def PongMessage : Bytes := ascii "3"
def RegularMessage : Bytes := ascii "4"

/-- Why `strconv.Atoi` failed. -/
inductive NumErrorKind where
  | ErrSyntax
  | ErrRange
  deriving DecidableEq

/-- The error values that the codec and `Namespace.Ack` return. -/
inductive Error where
  /-- The value `ErrorWrongMessageType`, "wrong message type". -/
  | ErrorWrongMessageType
  /-- The value `ErrorWrongPacket`, "wrong packet". -/
  | ErrorWrongPacket
  /-- The error that `fmt.Errorf` makes for a major type that cannot be decoded. -/
  | cantDecode (majorType : Bytes)
  /-- A `*strconv.NumError` of `Atoi` on the text `num`. -/
  | NumError (num : Bytes) (kind : NumErrorKind)
  /-- An error of `json.Marshal` or `json.Unmarshal`. -/
  | json (code : Nat)
  /-- An error of the transport's write. -/
  | write (code : Nat)
  /-- The `Err()` of a context that is done. -/
  | ctx (code : Nat)
  deriving DecidableEq

deriving instance DecidableEq for Except

/-- Message to emit or receive. -/
structure Message where
  Namespace : Bytes := []
  Method : Bytes := []
  Type_ : Bytes := []
  AckID : Int := 0
  Data : Bytes := []
  Source : Bytes := []
  deriving DecidableEq

/-! ## decode.go -/

/-- The `for` loop of `extractNamespace`: `some pos` when the loop is left by
`break` (at the first `,`) or runs to its end (`pos` is still 0), `none` when
it returns at a `"`. -/
def extractNamespaceLoop : List (Nat × Nat) → Option Nat
  | [] => some 0
  | (i, c) :: tl =>
    if c = chComma then some i
    else if c = chQuote then none
    else extractNamespaceLoop tl

/-- Source function `extractNamespace`. -/
def extractNamespace (data : Bytes) : Option (Bytes × Bytes) :=
  if data.length = 0 then some ([], [])
  else
    match extractNamespaceLoop (rangeString data) with
    | none => some ([], data)
    | some pos =>
      (slice data 0 pos).bind fun namespace_ =>
        if data.length > pos + 1 then
          (sliceFrom data (pos + 1)).bind fun rest => some (namespace_, rest)
        else some (namespace_, [])

/-- Source function `getRegularMessageType`. -/
def getRegularMessageType (data : Bytes) : Option (Except Error Bytes) :=
  if data.length = 1 then some (.error .ErrorWrongMessageType)
  else
    (slice data 0 2).bind fun p =>
      if p = NamespaceClose then some (.ok MessageTypeClose)
      else if p = EmptyMessage then some (.ok MessageTypeEmpty)
      else if p = CommonMessage then some (.ok MessageTypeAckRequest)
      else if p = AckMessage then some (.ok MessageTypeAckResponse)
      else if p = ErrorMessage then some (.ok MessageTypeError)
      else some (.error .ErrorWrongMessageType)

/-- Source function `getMessageType`. -/
def getMessageType (data : Bytes) : Option (Except Error Bytes) :=
  (slice data 0 1).bind fun p =>
    if p = OpenMessage then some (.ok MessageTypeOpen)
    else if p = CloseMessage then some (.ok MessageTypeClose)
    else if p = PingMessage then some (.ok MessageTypePing)
    else if p = PongMessage then some (.ok MessageTypePong)
    else if p = RegularMessage then getRegularMessageType data
    else some (.error .ErrorWrongMessageType)

/-- The digit loop of `strconv.ParseUint(s, 10, 64)`, with `n` the value
read so far. -/
def parseUintLoop : Bytes → Nat → Except NumErrorKind Nat
  | [], n => .ok n
  | c :: cs, n =>
    if chZero ≤ c ∧ c ≤ 57 then
      if n ≥ (2 ^ 64 - 1) / 10 + 1 then .error .ErrRange
      else if n * 10 + (c - chZero) > 2 ^ 64 - 1 then .error .ErrRange
      else parseUintLoop cs (n * 10 + (c - chZero))
    else .error .ErrSyntax

/-- Go's `strconv.Atoi` where `int` has 64 bits: an optional sign, then one or
more decimal digits, and the value has to fit in an `int`. -/
def Atoi (s : Bytes) : Except Error Int :=
  match s with
  | [] => .error (.NumError s .ErrSyntax)
  | c :: cs =>
    let neg : Bool := c = chMinus
    let digits := if c = chPlus ∨ c = chMinus then cs else s
    if digits = [] then .error (.NumError s .ErrSyntax)
    else
      match parseUintLoop digits 0 with
      | .error k => .error (.NumError s k)
      | .ok un =>
        if neg = false ∧ un ≥ 2 ^ 63 then .error (.NumError s .ErrRange)
        else if neg = true ∧ un > 2 ^ 63 then .error (.NumError s .ErrRange)
        else .ok (if neg then - (un : Int) else (un : Int))

/-- Source function `getAckFromPacket`. -/
def getAckFromPacket (text : Bytes) : Option (Except Error (Int × Bytes)) :=
  if text.length < 2 then some (.error .ErrorWrongPacket)
  else
    match indexByte text chLBracket with
    | none => some (.error .ErrorWrongPacket)
    | some pos =>
      (slice text 0 pos).bind fun num =>
        match Atoi num with
        | .error err => some (.error err)
        | .ok ack => (sliceFrom text pos).bind fun restText => some (.ok (ack, restText))

/-- The local variables `start, end, rest, countQuote` of `decodePacket`. -/
structure PacketScan where
  start : Nat := 0
  end_ : Nat := 0
  rest : Nat := 0
  countQuote : Nat := 0
  deriving DecidableEq

/-- The `switch countQuote` that `decodePacket` runs at a `"`, with the
`countQuote++` that follows it; `none` is its `default:` branch, which returns
`ErrorWrongPacket`. -/
def quoteStep (i : Nat) (st : PacketScan) : Option PacketScan :=
  match st.countQuote with
  | 0 => some { st with start := i + 1, countQuote := st.countQuote + 1 }
  | 1 => some { st with end_ := i, rest := i + 1, countQuote := st.countQuote + 1 }
  | _ => none

/-- The `for` loop of `decodePacket`: `none` when it returns
`ErrorWrongPacket` at a third `"`, else the variables when the loop is left
(by `break` at the first `,` that follows two quotes, or at its end). -/
def decodePacketLoop : List (Nat × Nat) → PacketScan → Option PacketScan
  | [], st => some st
  | (i, c) :: tl, st =>
    match (if c = chQuote then quoteStep i st else some st) with
    | none => none
    | some st1 =>
      if c = chComma then
        if st1.countQuote < 2 then decodePacketLoop tl st1
        else some { st1 with rest := i + 1 }
      else decodePacketLoop tl st1

/-- Source function `decodePacket`; the result is `(method, packet, err)`. -/
def decodePacket (input : Bytes) : Option (Bytes × Bytes × Option Error) :=
  match decodePacketLoop (rangeString input) {} with
  | none => some ([], [], some .ErrorWrongPacket)
  | some st =>
    if st.end_ < st.start ∨ st.rest ≥ input.length then
      some ([], [], some .ErrorWrongPacket)
    else
      (sliceFrom input st.rest).bind fun tail =>
        (slice input st.start st.end_).bind fun method =>
          some (method, chLBracket :: tail, none)

/-- Source function `Decode`.  The result is Go's pair `(msg, err)`, either
of which may be nil; the outer `none` is a panic. -/
def Decode (source : Bytes) : Option (Option Message × Option Error) :=
  let data := source
  let msg : Message := { Source := data }
  if data.length = 0 then some (none, some .ErrorWrongMessageType)
  else
    (slice data 0 1).bind fun majorType =>
      if majorType = OpenMessage then
        let msg := { msg with Type_ := MessageTypeOpen }
        if data.length > 1 then
          (sliceFrom data 1).bind fun d => some (some { msg with Data := d }, none)
        else some (some msg, none)
      else
        (getMessageType data).bind fun r =>
          match r with
          | .error err => some (none, some err)
          | .ok t =>
            let msg := { msg with Type_ := t }
            let msg :=
              if msg.Type_ = MessageTypeEmpty then { msg with Method := OnConnection } else msg
            (if data.length > 2 then
              (sliceFrom data 2).bind fun d =>
                (extractNamespace d).bind fun nr =>
                  some ({ msg with Namespace := nr.1 }, nr.2)
            else some (msg, data)).bind fun md =>
              let msg := md.1
              let data := md.2
              if msg.Type_ = MessageTypeClose ∨ msg.Type_ = MessageTypePing ∨
                  msg.Type_ = MessageTypePong ∨ msg.Type_ = MessageTypeEmpty ∨
                  msg.Type_ = MessageTypeError then
                some (some msg, none)
              else if majorType ≠ RegularMessage then
                some (none, some (.cantDecode majorType))
              else if msg.Type_ = MessageTypeAckResponse then
                (getAckFromPacket data).bind fun r =>
                  match r with
                  | .error err => some (none, some err)
                  | .ok (ack, rest) =>
                    some (some { msg with AckID := ack, Data := rest }, none)
              else
                let msg := { msg with Type_ := MessageTypeEmit }
                (decodePacket data).bind fun r =>
                  some (some { msg with Method := r.1, Data := r.2.1 }, r.2.2)

/-! ## encode.go -/

/-- The fuel-driven digits of `itoaNat`. -/
def natDigits : Nat → Nat → Bytes
  | 0, _ => []
  | fuel + 1, n =>
    if n < 10 then [chZero + n] else natDigits fuel (n / 10) ++ [chZero + n % 10]

/-- The decimal digits of a natural number, most significant first (the fuel
`n + 1` is never used up). -/
def itoaNat (n : Nat) : Bytes := natDigits (n + 1) n

/-- What `fmt.Sprintf("%v", n)` prints for an `int`: a `-` for a negative
number, then the decimal digits. -/
def itoa (n : Int) : Bytes :=
  if n < 0 then chMinus :: itoaNat n.natAbs else itoaNat n.natAbs

/-- Source function `typeToText`. -/
def typeToText (msgType : Bytes) : Except Error Bytes :=
  if msgType = MessageTypeOpen then .ok OpenMessage
  else if msgType = MessageTypeClose then .ok CloseMessage
  else if msgType = MessageTypePing then .ok PingMessage
  else if msgType = MessageTypePong then .ok PongMessage
  else if msgType = MessageTypeEmpty ∨ msgType = MessageTypeNamespace then .ok EmptyMessage
  else if msgType = MessageTypeEmit ∨ msgType = MessageTypeAckRequest then .ok CommonMessage
  else if msgType = MessageTypeAckResponse then .ok AckMessage
  else .error .ErrorWrongMessageType

/-- The table `htmlSafeSet` of `encoding/json`: the ASCII bytes that a JSON
string holds as they are. -/
def htmlSafe (b : Nat) : Bool :=
  decide (0x20 ≤ b ∧ b < 0x80 ∧ b ≠ chQuote ∧ b ≠ 0x26 ∧ b ≠ 0x3C ∧ b ≠ 0x3E ∧ b ≠ chBackslash)

/-- The digit `hex[k]` of `"0123456789abcdef"`. -/
def hexDigit (k : Nat) : Nat := if k < 10 then chZero + k else 97 + (k - 10)

/-- The escape that `encoding/json` writes for an ASCII byte outside
`htmlSafeSet` (as in Go 1.22 and later; earlier versions write a `\u00XX` for
backspace and form feed as well). -/
def jsonEscape (b : Nat) : Bytes :=
  if b = chBackslash ∨ b = chQuote then [chBackslash, b]
  else if b = 8 then [chBackslash, 98]
  else if b = 12 then [chBackslash, 102]
  else if b = 10 then [chBackslash, 110]
  else if b = 13 then [chBackslash, 114]
  else if b = 9 then [chBackslash, 116]
  else [chBackslash, 117, chZero, chZero, hexDigit (b >>> 4), hexDigit (b &&& 0xF)]

/-- The loop of `appendString` of `encoding/json` with `escapeHTML` set:
the bytes between the two quotes.  `skip` counts the bytes that still belong
to the rune read last, and `keep` says whether they are copied (the rune was
written as it is) or dropped (it was written as an escape).

This is the encoder of version 1 of the package as of Go 1.22: a byte that is
not valid UTF-8 is written as the six bytes of the escape `\ufffd`.  An
encoder that writes the three bytes of U+FFFD itself (EF BF BD) differs from
this one on the strings that hold such a byte, and on no other string.  What
`Encode` does around the JSON text of the method does not depend on the
encoder: `EncodeWith` takes it as a parameter. -/
def jsonStringBody : Nat → Bool → Bytes → Bytes
  | _, _, [] => []
  | skip + 1, keep, b :: bs =>
    if keep then b :: jsonStringBody skip keep bs else jsonStringBody skip keep bs
  | 0, _, b :: bs =>
    if b < 0x80 then
      if htmlSafe b then b :: jsonStringBody 0 true bs
      else jsonEscape b ++ jsonStringBody 0 true bs
    else if (decodeRune (b :: bs)).1 = runeError ∧ (decodeRune (b :: bs)).2 = 1 then
      [chBackslash, 117, 102, 102, 102, 100] ++ jsonStringBody 0 true bs
    else if (decodeRune (b :: bs)).1 = 0x2028 ∨ (decodeRune (b :: bs)).1 = 0x2029 then
      [chBackslash, 117, 50, chZero, 50, hexDigit ((decodeRune (b :: bs)).1 &&& 0xF)] ++
        jsonStringBody ((decodeRune (b :: bs)).2 - 1) false bs
    else b :: jsonStringBody ((decodeRune (b :: bs)).2 - 1) true bs

/-- What `json.Marshal` writes for a Go string. -/
def jsonString (s : Bytes) : Bytes := chQuote :: jsonStringBody 0 true s ++ [chQuote]

/-- An argument of `Encode`, an arbitrary Go value, is represented by what
`json.Marshal` makes of it: its JSON text, or an error. -/
abbrev Arg := Except Error Bytes

/-- The elements of a JSON array, each after the first led by a `,`; the
first argument that does not encode gives the error. -/
def jsonElements : List Arg → Except Error Bytes
  | [] => .ok []
  | .error e :: _ => .error e
  | .ok x :: rest =>
    match jsonElements rest with
    | .error e => .error e
    | .ok tail => .ok (if rest = [] then x else x ++ chComma :: tail)

/-- What `json.Marshal` writes for a non-nil `[]interface{}`: `[`, the
elements separated by `,`, `]`. -/
def jsonMarshalArray (elems : List Arg) : Except Error Bytes :=
  match jsonElements elems with
  | .error e => .error e
  | .ok body => .ok (chLBracket :: body ++ [chRBracket])

/-- Source function `Encode`, with what `json.Marshal` writes for a Go string
(the method, the first element of the array) as the parameter
`marshalString`.  The variadic `args` is `none` when it is nil (no argument
was passed) and `some l` otherwise.  The deferred `recover` turns a panic of
the JSON encoder into an error, which here is an argument that does not
encode. -/
def EncodeWith (marshalString : Bytes → Bytes) (msg : Message) (args : Option (List Arg)) :
    Except Error Bytes :=
  match typeToText msg.Type_ with
  | .error err => .error err
  | .ok result =>
    if msg.Type_ = MessageTypeEmpty ∨ msg.Type_ = MessageTypePing ∨
        msg.Type_ = MessageTypePong then .ok result
    else
      let result :=
        if msg.Type_ = MessageTypeAckRequest ∨ msg.Type_ = MessageTypeAckResponse then
          result ++ itoa msg.AckID
        else result
      if msg.Type_ = MessageTypeOpen ∨ msg.Type_ = MessageTypeClose then
        .ok (result ++ msg.Data)
      else if msg.Type_ = MessageTypeAckResponse then .ok (result ++ msg.Data)
      else if msg.Type_ = MessageTypeNamespace then .ok (result ++ msg.Method)
      else
        match args with
        | none =>
          .ok (result ++ msg.Namespace ++ [chComma, chLBracket, chQuote] ++ msg.Method ++
            [chQuote, chRBracket])
        | some args =>
          match jsonMarshalArray (.ok (marshalString msg.Method) :: args) with
          | .error err => .error err
          | .ok json =>
            if msg.Namespace = [] then .ok (result ++ msg.Namespace ++ json)
            else .ok (result ++ msg.Namespace ++ [chComma] ++ json)

/-- Source function `Encode` with the string encoder `jsonString` of
`encoding/json`. -/
def Encode (msg : Message) (args : Option (List Arg)) : Except Error Bytes :=
  EncodeWith jsonString msg args

/-! ## namespace.go and client.go: sending -/

/-- The default namespace is always empty. -/
def defaultNamespace : Bytes := []

/-- Source function `Namespace.send` of the namespace `name`: the error it
returns, nil when the packet was written.  `writeMessage` is the client's
synchronous write with its outcome. -/
def send (name : Bytes) (writeMessage : Bytes → Option Error) (msg : Message)
    (args : Option (List Arg)) : Option Error :=
  let msg := { msg with Namespace := name }
  match Encode msg args with
  | .error err => some err
  | .ok command => writeMessage command

/-! ## ack/ack.go

The two mutexes of a `Waiter` make each method atomic; a run of the methods
in some order is a list of `WaiterOp`. -/

/-- A `chan string` value, known by a number; 0 is the nil channel, the zero
value that a failed lookup returns. -/
abbrev Chan := Nat

/-- The constant `math.MaxInt32`. -/
def MaxInt32 : Int := 2147483647

/-- A 64-bit `int` holds the result of an addition modulo 2^64. -/
def wrapInt (x : Int) : Int := (x + 2 ^ 63) % 2 ^ 64 - 2 ^ 63

/-- A Go map that is not nil: its entries, at most one for a key. -/
abbrev Entries := List (Int × Chan)

/-- Go's `m[k] = v` on a map that is not nil. -/
def mapAssign (m : Entries) (k : Int) (v : Chan) : Entries :=
  (k, v) :: m.filter (fun p => p.1 ≠ k)

/-- Go's `delete(m, k)`; it leaves a nil map nil. -/
def mapDelete (m : Option Entries) (k : Int) : Option Entries :=
  m.map fun es => es.filter (fun p => p.1 ≠ k)

/-- Go's `v, ok := m[k]`, on a nil map too. -/
def mapIndex (m : Option Entries) (k : Int) : Chan × Bool :=
  match m with
  | none => (0, false)
  | some es =>
    match es.lookup k with
    | some v => (v, true)
    | none => (0, false)

/-- Go's `len(m)`, 0 for a nil map. -/
def mapLen (m : Option Entries) : Nat :=
  match m with
  | none => 0
  | some es => es.length

/-- Waiter for registering acks to be fulfilled.  The zero value has the
counter 0 and a nil map. -/
structure Waiter where
  counter : Int := 0
  message : Option Entries := none
  deriving DecidableEq

/-- Source function `Waiter.Next`: the id and the waiter after the call. -/
def Waiter.Next (w : Waiter) : Int × Waiter :=
  let counter := if w.counter = MaxInt32 then -1 else w.counter
  let counter := wrapInt (counter + 1)
  (counter, { w with counter := counter })

/-- Source function `Waiter.Set`. -/
def Waiter.Set (w : Waiter) (id : Int) (msg : Chan) : Waiter :=
  let message : Entries :=
    match w.message with
    | none => []
    | some es => es
  { w with message := some (mapAssign message id msg) }

/-- Source function `Waiter.Delete`. -/
def Waiter.Delete (w : Waiter) (id : Int) : Waiter :=
  { w with message := mapDelete w.message id }

/-- Source function `Waiter.Load`. -/
def Waiter.Load (w : Waiter) (id : Int) : Chan × Bool := mapIndex w.message id

/-- Source function `Waiter.Size`. -/
def Waiter.Size (w : Waiter) : Nat := mapLen w.message

/-- A call of a method of a `Waiter`. -/
inductive WaiterOp where
  | Next
  | Set (id : Int) (msg : Chan)
  | Delete (id : Int)
  | Load (id : Int)
  | Size
  deriving DecidableEq

/-- The waiter after a call. -/
def Waiter.apply (w : Waiter) : WaiterOp → Waiter
  | .Next => w.Next.2
  | .Set id msg => w.Set id msg
  | .Delete id => w.Delete id
  | .Load _ => w
  | .Size => w

/-- The waiter after a list of calls. -/
def Waiter.run (w : Waiter) (ops : List WaiterOp) : Waiter := ops.foldl Waiter.apply w

/-- The values that the calls of `Next` in a list of calls return, in order. -/
def Waiter.nextValues : Waiter → List WaiterOp → List Int
  | _, [] => []
  | w, .Next :: ops => w.Next.1 :: Waiter.nextValues w.Next.2 ops
  | w, .Set id msg :: ops => Waiter.nextValues (w.Set id msg) ops
  | w, .Delete id :: ops => Waiter.nextValues (w.Delete id) ops
  | w, .Load _ :: ops => Waiter.nextValues w ops
  | w, .Size :: ops => Waiter.nextValues w ops

/-! ## namespace.go: `Ack` -/

/-- How the `select` of `Ack` ends. -/
inductive SelectOutcome where
  /-- A text arrives on the channel that `Ack` registered. -/
  | reply (ret : Bytes)
  /-- The context is done first, and `ctx.Err()` is `err`. -/
  | done (err : Error)
  /-- Neither ever happens. -/
  | blocked
  deriving DecidableEq

/-- How a call of `Ack` ends. -/
inductive AckResult where
  /-- It returns `err` (nil for `none`). -/
  | returned (err : Option Error)
  /-- It waits for ever. -/
  | blocked
  /-- It panics. -/
  | panicked
  deriving DecidableEq

/-- Source function `Namespace.Ack` of the namespace `name`: the waiter it
leaves and how the call ends.  `waiter` is the channel that `make` returns,
`unmarshal` is `json.Unmarshal` into `v`, and `outcome` is what the
surroundings do while `Ack` sits in its `select`. -/
def Ack (w : Waiter) (name : Bytes) (writeMessage : Bytes → Option Error)
    (unmarshal : Bytes → Option Error) (waiter : Chan) (method : Bytes) (args : Arg)
    (outcome : SelectOutcome) : Waiter × AckResult :=
  let msg : Message :=
    { Type_ := MessageTypeAckRequest, AckID := w.Next.1, Method := method }
  let w := w.Next.2
  let w := w.Set msg.AckID waiter
  let w :=
    match send name writeMessage msg (some [args]) with
    | some _ => w.Delete msg.AckID
    | none => w
  match outcome with
  | .reply ret =>
    match slice ret 1 (ret.length - 1) with
    | none => (w, .panicked)
    | some ret => (w, .returned (unmarshal ret))
  | .done err => (w.Delete msg.AckID, .returned (some err))
  | .blocked => (w, .blocked)

/-! ## listener.go

A callback is known to `NewHandler` through `reflect` only: by its kind and,
for a function, by the types of its parameters, the number of its results and
whether it is variadic. -/

/-- The kinds of `reflect`. -/
inductive Kind where
  | Invalid | Bool | Int | Int8 | Int16 | Int32 | Int64
  | Uint | Uint8 | Uint16 | Uint32 | Uint64 | Uintptr
  | Float32 | Float64 | Complex64 | Complex128
  | Array | Chan | Func | Interface | Map | Ptr | Slice | String | Struct | UnsafePointer
  deriving DecidableEq

/-- A `reflect.Type` of a parameter, as far as the handlers look at it: its
kind and the kind of its elements (read for a slice only). -/
structure GoType where
  kind : Kind
  elemKind : Kind := .Invalid
  deriving DecidableEq

/-- The `reflect.Type` of a function: the types of its parameters (the last
one is the slice when the function is variadic) and the number of results. -/
structure FuncType where
  ins : List GoType := []
  numOut : Nat := 0
  isVariadic : Bool := false
  deriving DecidableEq

/-- The `reflect.Value` of a callback: its kind, and its type when it is a
function. -/
structure Value where
  kind : Kind
  type_ : FuncType := {}
  deriving DecidableEq

/-- What Go itself makes sure of: the last parameter of a variadic function
is there and is a slice. -/
def FuncType.wellFormed (fType : FuncType) : Prop :=
  fType.isVariadic = true → ∃ last, fType.ins.getLast? = some last ∧ last.kind = .Slice

instance (fType : FuncType) : Decidable fType.wellFormed := by
  unfold FuncType.wellFormed
  cases fType.ins.getLast? with
  | none => exact decidable_of_iff (fType.isVariadic ≠ true) (by simp)
  | some last =>
    exact decidable_of_iff (fType.isVariadic = true → last.kind = .Slice) (by simp)

/-- The errors of listener.go and convert.go. -/
inductive HandlerError where
  /-- The type `ErrorNotFunction`. -/
  | ErrorNotFunction (kind : Kind)
  /-- The type `ErrorArgument`. -/
  | ErrorArgument (kind : Kind)
  /-- The type `ErrorInvalidInterface`. -/
  | ErrorInvalidInterface (method : Bytes) (reason : Bytes)
  /-- The error "f should return not more than one value". -/
  | moreThanOneValue
  /-- The error "support for variadic is only partially implemented". -/
  | variadicPartial
  /-- An error of `json.Unmarshal`. -/
  | json (err : Error)
  deriving DecidableEq

/-- Handler for the message. -/
structure Handler where
  Func : Value
  Out : Bool
  Variadic : Bool
  args : List GoType
  deriving DecidableEq

/-- Source function `isVariadicNonInterface`; `none` is the panic of
`fType.In` on a number that is no parameter. -/
def isVariadicNonInterface (fType : FuncType) : Option Bool :=
  if fType.isVariadic = false then some false
  else
    match fType.ins.get? (fType.ins.length - 1) with
    | none => none
    | some arg =>
      if arg.kind ≠ .Slice then some false
      else some (decide (arg.elemKind ≠ .Interface))

/-- Source function `checkParamKind`. -/
def checkParamKind (kind : Kind) : Option HandlerError :=
  match kind with
  | .Bool | .Int | .Int8 | .Int16 | .Int32 | .Int64
  | .Uint | .Uint8 | .Uint16 | .Uint32 | .Uint64
  | .Float32 | .Float64 | .Complex64 | .Complex128
  | .Array | .Interface | .Map | .Ptr | .Slice | .String | .Struct => none
  | _ => some (.ErrorArgument kind)

/-- Source function `checkHandlerInputParams`, as a walk over the parameters
in order. -/
def checkHandlerInputParams : List GoType → Option HandlerError
  | [] => none
  | t :: ts =>
    match checkParamKind t.kind with
    | some err => some err
    | none => checkHandlerInputParams ts

/-- Source function `NewHandler`. -/
def NewHandler (f : Value) : Option (Except HandlerError Handler) :=
  let fValue := f
  if fValue.kind ≠ .Func then some (.error (.ErrorNotFunction fValue.kind))
  else
    let fType := fValue.type_
    if fType.numOut > 1 then some (.error .moreThanOneValue)
    else
      match checkHandlerInputParams fType.ins with
      | some err => some (.error err)
      | none =>
        match isVariadicNonInterface fType with
        | none => none
        | some true => some (.error .variadicPartial)
        | some false =>
          some (.ok { Func := fValue, Out := decide (fType.numOut = 1),
                      Variadic := fType.isVariadic, args := fType.ins })

/-! ## client.go: the handlers

The map of a `handlers` is never nil where its methods run: `Client.init`
calls `Reset` before anything else.  It is a list of entries; the order of
the list stands for the order in which Go happens to walk the map. -/

/-- The key of a handler. -/
structure location where
  namespace_ : Bytes
  method : Bytes
  deriving DecidableEq

/-- The registry of the handlers of a client. -/
structure handlers where
  m : List (location × Handler) := []
  deriving DecidableEq

/-- Source function `handlers.Get`; `none` is the pair of nil and false. -/
def handlers.Get (h : handlers) (l : location) : Option Handler := h.m.lookup l

/-- Source function `handlers.Set`. -/
def handlers.Set (h : handlers) (l : location) (handler : Handler) : handlers :=
  { m := (l, handler) :: h.m.filter (fun p => p.1 ≠ l) }

/-- Source function `handlers.Delete`. -/
def handlers.Delete (h : handlers) (l : location) : handlers :=
  { m := h.m.filter (fun p => p.1 ≠ l) }

/-- Source function `handlers.Reset`. -/
def handlers.Reset (_ : handlers) : handlers := { m := [] }

/-- Source function `handlers.List`. -/
def handlers.List (h : handlers) (namespace_ : Bytes) : List Bytes :=
  (h.m.filter (fun p => p.1.namespace_ = namespace_)).map (fun p => p.1.method)

/-! ## namespace.go: the listeners -/

/-- Source function `Namespace.On` of the namespace `name`: the registry
after the call and the error returned; the outer `none` is a panic. -/
def Namespace.On (name : Bytes) (hs : handlers) (method : Bytes) (f : Value) :
    Option (handlers × Option HandlerError) :=
  match NewHandler f with
  | none => none
  | some (.error err) => some (hs, some err)
  | some (.ok h) => some (hs.Set { namespace_ := name, method := method } h, none)

/-- Source function `Namespace.Off` of the namespace `name`. -/
def Namespace.Off (name : Bytes) (hs : handlers) (method : Bytes) : handlers :=
  hs.Delete { namespace_ := name, method := method }

/-- Source function `Namespace.Listeners` of the namespace `name`. -/
def Namespace.Listeners (name : Bytes) (hs : handlers) : List Bytes := hs.List name

/-! ## convert.go

The JSON decoder is outside the repository; `getFunctionCallArgs` takes the
three uses it makes of `json.Unmarshal` as arguments.  A value of Go is an
element of a type `Val`. -/

/-- The uses of `jsonUnmarshalUnpanic` in convert.go, each with its outcome
(a panic of the decoder is an error, as the deferred `recover` makes it). -/
structure Unmarshal (Val : Type) where
  /-- The text of a message into a `[]json.RawMessage`: its elements. -/
  parts : Bytes → Except Error (List Bytes)
  /-- One element into a fresh value of a parameter type. -/
  value : GoType → Bytes → Except Error Val
  /-- An array into a fresh value of the type of the variadic parameter; the
  result is the list of the elements of that value. -/
  variadic : GoType → Bytes → Except Error (List Val)

/-- The text that the loop of `getVariadicFunctionCallArgs` puts between the
brackets: the elements, a `,` after each but the last. -/
def variadicText : List Bytes → Bytes
  | [] => []
  | [value] => value
  | value :: rest => value ++ chComma :: variadicText rest

/-- Source function `getVariadicFunctionCallArgs`. -/
def getVariadicFunctionCallArgs {Val : Type} (u : Unmarshal Val) (variadic : List Bytes)
    (funcArg : GoType) : Except Error (List Val) :=
  u.variadic funcArg (chLBracket :: variadicText variadic ++ [chRBracket])

/-- The `for c := 0; c < handledArguments; c++` loop of `getFunctionCallArgs`:
`n` counts the rounds that are left, `c` is the counter and `is_` the
arguments bound so far.  The test `c == funcsArgsNum-1` is written
`c + 1 = h.args.length`, so that `parts[funcsArgsNum-1:]` is `parts.drop c` and
`funcArgs[funcsArgsNum-1]` the parameter `c`.  The outer `none` is an index
out of range. -/
def callArgsLoop {Val : Type} (u : Unmarshal Val) (h : Handler) (parts : List Bytes) :
    Nat → Nat → List Val → Option (List Val × Option HandlerError)
  | 0, _, is_ => some (is_, none)
  | n + 1, c, is_ =>
    if h.Variadic = true ∧ c + 1 = h.args.length then
      match h.args.get? c with
      | none => none
      | some funcArg =>
        if c > parts.length then none
        else
          match getVariadicFunctionCallArgs u (parts.drop c) funcArg with
          | .error err => some ([], some (.json err))
          | .ok vis => some (is_ ++ vis, none)
    else
      match parts.get? c, h.args.get? c with
      | some part, some funcArg =>
        match u.value funcArg part with
        | .error err => some ([], some (.json err))
        | .ok v => callArgsLoop u h parts n (c + 1) (is_ ++ [v])
      | _, _ => none

/-- The reason that `getFunctionCallArgs` writes into `ErrorInvalidInterface`. -/
def invalidInterfaceReason (funcArgs parts : Nat) : Bytes :=
  ascii "message has " ++ itoaNat funcArgs ++
    ascii " arguments, but listener requires at least " ++ itoaNat parts

/-- Source function `Handler.getFunctionCallArgs`: the arguments and the
error it returns (a nil slice is `[]`); `unit` is the `&struct` value that a
handler without parameters is called with. -/
def getFunctionCallArgs {Val : Type} (u : Unmarshal Val) (unit : Val) (h : Handler)
    (msg : Message) : Option (List Val × Option HandlerError) :=
  if h.args.length = 0 then some ([unit], none)
  else
    match u.parts msg.Data with
    | .error err => some ([], some (.json err))
    | .ok parts =>
      let funcArgs := h.args
      if funcArgs.length > parts.length then
        some ([], some (.ErrorInvalidInterface msg.Method
          (invalidInterfaceReason funcArgs.length parts.length)))
      else
        let handledArguments :=
          if funcArgs.length < parts.length ∧ h.Variadic = false then funcArgs.length
          else parts.length
        callArgsLoop u h parts handledArguments 0 []

/-! ## client.go: `dial` and `Close` -/

/-- Go's `strings.HasSuffix`. -/
def hasSuffix (s suffix : Bytes) : Bool :=
  decide (s.length ≥ suffix.length) && decide (s.drop (s.length - suffix.length) = suffix)

/-- The path that `dial` connects to, from the path of the URL it is given. -/
def dialPath (path : Bytes) : Bytes :=
  if (!hasSuffix path (ascii "/socket.io") || !hasSuffix path (ascii "/socket.io/")) = true then
    path ++ ascii "/socket.io/"
  else path

/-- A client, as far as `Close` goes: its handlers, whether its root context
is done, and what has been done so far: the calls of `conn.Close` and of
`ctxCancel`, and the handlers that `callLoopEvent` has called, in order. -/
structure Client where
  handlers : handlers := {}
  done : Bool := false
  connCloseCalls : Nat := 0
  ctxCancelCalls : Nat := 0
  called : List location := []
  deriving DecidableEq

/-- Go's `len(c.ctx.Done())`: the channel of a context is closed when the
context is done and nothing is ever sent on it, so no element waits in it,
whether the context is done or not. -/
def lenDone (_ : Bool) : Nat := 0

/-- Source function `Client.callLoopEvent`, which calls the handler of the
event if there is one. -/
def Client.callLoopEvent (c : Client) (namespace_ : Bytes) (event : Bytes) : Client :=
  match c.handlers.Get { namespace_ := namespace_, method := event } with
  | none => c
  | some _ => { c with called := c.called ++ [{ namespace_ := namespace_, method := event }] }

/-- Source function `Client.Close`. -/
def Client.Close (c : Client) : Client :=
  if lenDone c.done ≠ 0 then c
  else
    let c := { c with connCloseCalls := c.connCloseCalls + 1 }
    let c := { c with ctxCancelCalls := c.ctxCancelCalls + 1, done := true }
    c.callLoopEvent defaultNamespace OnDisconnect

/-! ## client.go: the dispatch of incoming messages -/

/-- The branches of the `switch msg.Type` of `Client.incomingHandler`, each
under the name of its case or of the function it calls. -/
inductive Branch where
  | Open
  | Ping
  | Pong
  | Error
  | handleIncomingEmit
  | handleIncomingAckRequest
  | handleIncomingAckResponse
  | Empty
  | default
  deriving DecidableEq

/-- Source function `Client.incomingHandler`: the branch of its `switch` that
a message takes. -/
def incomingHandler (msg : Message) : Branch :=
  if msg.Type_ = MessageTypeOpen then .Open
  else if msg.Type_ = MessageTypePing then .Ping
  else if msg.Type_ = MessageTypePong then .Pong
  else if msg.Type_ = MessageTypeError then .Error
  else if msg.Type_ = MessageTypeEmit then .handleIncomingEmit
  else if msg.Type_ = MessageTypeAckRequest then .handleIncomingAckRequest
  else if msg.Type_ = MessageTypeAckResponse then .handleIncomingAckResponse
  else if msg.Type_ = MessageTypeEmpty then .Empty
  else .default

/-- Source function `Client.handleIncomingAckResponse`: the channel that the
waiter holds for the ack id of the message and the text sent on it, `none`
when no ack with that id is waiting. -/
def handleIncomingAckResponse (w : Waiter) (msg : Message) : Option (Chan × Bytes) :=
  if (w.Load msg.AckID).2 then some ((w.Load msg.AckID).1, msg.Data) else none

/-! ## Predicates of the specification -/

/-- A namespace as it goes on the wire: empty (the default one), or a text
that begins with `/` and holds neither `,` nor `"`. -/
def wireNamespace (ns : Bytes) : Prop :=
  ns = [] ∨ (ns.head? = some 47 ∧ ∀ b ∈ ns, b ≠ chComma ∧ b ≠ chQuote)

instance (ns : Bytes) : Decidable (wireNamespace ns) := by
  unfold wireNamespace; infer_instance

/-- An event frame as text: `42`, the namespace and a `,` unless it is the
default one, then `["` method `",` remainder. -/
def eventFrame (ns m r : Bytes) : Bytes :=
  ascii "42" ++ ns ++ (if ns = [] then [] else [chComma]) ++
    [chLBracket, chQuote] ++ m ++ [chQuote, chComma] ++ r

/-- The compact JSON array of elements given by their JSON texts: `[`, the
texts separated by `,`, `]`. -/
def jsonArray (elems : List Bytes) : Bytes :=
  chLBracket :: List.intercalate [chComma] elems ++ [chRBracket]

/-- The kinds that the specification permits for a parameter of a callback:
bool, the signed and unsigned integers, the floats, the complex numbers,
array, interface, map, pointer, slice, string and struct. -/
def permittedKind (k : Kind) : Prop :=
  k ∈ [Kind.Bool, .Int, .Int8, .Int16, .Int32, .Int64, .Uint, .Uint8, .Uint16, .Uint32,
    .Uint64, .Float32, .Float64, .Complex64, .Complex128, .Array, .Interface, .Map, .Ptr,
    .Slice, .String, .Struct]

instance (k : Kind) : Decidable (permittedKind k) := by
  unfold permittedKind; infer_instance

/-- Whether a call is a `Set` or a `Delete` on `id`. -/
def WaiterOp.writes (id : Int) : WaiterOp → Bool
  | .Set k _ => decide (k = id)
  | .Delete k => decide (k = id)
  | _ => false

/-- The last `Set` or `Delete` on `id` in a list of calls. -/
def lastWrite (ops : List WaiterOp) (id : Int) : Option WaiterOp :=
  (ops.filter (WaiterOp.writes id)).getLast?

/-- The finite map of the specification after a list of calls, from the
empty map: `id` is present, with the slot `s`, exactly when the last `Set` or
`Delete` on `id` was `Set(id, s)`. -/
def specStore (ops : List WaiterOp) (id : Int) : Option Chan :=
  match lastWrite ops id with
  | some (.Set _ s) => some s
  | _ => none

/-- The ids that are present in the map of the specification, each once. -/
def specIds (ops : List WaiterOp) : List Int :=
  (ops.filterMap fun op =>
    match op with
    | .Set k _ => some k
    | _ => none).dedup.filter fun id => (specStore ops id).isSome

/-- One of the bytes `0`, `1`, `2`, `3`, `4`. -/
def isTypeDigit (b : Nat) : Prop := b = 48 ∨ b = 49 ∨ b = 50 ∨ b = 51 ∨ b = 52

instance (b : Nat) : Decidable (isTypeDigit b) := by
  unfold isTypeDigit; infer_instance

/-- A frame of no known type: it is empty, or its first byte is none of
`0` to `4`, or its first byte is `4` and no byte `0` to `4` follows it. -/
def unrecognisedFrame : Bytes → Prop
  | [] => True
  | b :: rest => ¬ isTypeDigit b ∨ (b = 52 ∧ ∀ c ∈ rest.head?, ¬ isTypeDigit c)

instance (s : Bytes) : Decidable (unrecognisedFrame s) := by
  cases s <;> unfold unrecognisedFrame <;> infer_instance

/-! ## Lemmas: ranging over a string and ASCII bytes -/

theorem decodeRune_ascii (b : Nat) (bs : Bytes) (h : b < 128) :
    decodeRune (b :: bs) = (b, 1) := by
  simp [decodeRune, h]

theorem decodeRune_high (b : Nat) (bs : Bytes) (h : 128 ≤ b) :
    128 ≤ (decodeRune (b :: bs)).1 ∧
      ∀ k, k < (decodeRune (b :: bs)).2 - 1 → ∀ x, bs[k]? = some x → 128 ≤ x := by
  have hb : ¬ b < 128 := by omega
  unfold decodeRune
  simp only [hb, if_false]
  split_ifs with h2 h3 h4
  · split
    · split_ifs with h5 h6
      · refine ⟨by simpa using (by omega : 128 ≤ _), ?_⟩
        intro k hk x hx
        have : k = 0 := by simp at hk; omega
        subst this
        simp at hx
        omega
      · simp [runeError]
      · simp [runeError]
    · simp [runeError]
  · split
    · split_ifs with h5 h6
      · refine ⟨by simpa using (by omega : 128 ≤ _), ?_⟩
        intro k hk x hx
        have : k = 0 ∨ k = 1 := by simp at hk; omega
        rcases this with rfl | rfl <;> simp at hx <;> omega
      · simp [runeError]
      · simp [runeError]
    · simp [runeError]
  · split
    · split_ifs with h5 h6
      · refine ⟨by simpa using (by omega : 128 ≤ _), ?_⟩
        intro k hk x hx
        have : k = 0 ∨ k = 1 ∨ k = 2 := by simp at hk; omega
        rcases this with rfl | rfl | rfl <;> simp at hx <;> omega
      · simp [runeError]
      · simp [runeError]
    · simp [runeError]
  · simp [runeError]

/-- The ASCII runes that `range` yields are the ASCII bytes of the string,
each at its own offset. -/
theorem rangeFrom_filter (s : Bytes) : ∀ (i skip : Nat),
    (∀ k, k < skip → ∀ x, s[k]? = some x → 128 ≤ x) →
    (rangeFrom i skip s).filter isASCII = (List.enumFrom i s).filter isASCII := by
  induction s with
  | nil => intro i skip _; cases skip <;> simp [rangeFrom]
  | cons b bs ih =>
    intro i skip hskip
    cases skip with
    | succ skip =>
      have hb : 128 ≤ b := hskip 0 (by omega) b (by simp)
      have hb2 : isASCII (i, b) = false := by simp [isASCII]; omega
      rw [rangeFrom, List.enumFrom_cons, List.filter_cons_of_neg (by simp [hb2])]
      apply ih
      intro k hk x hx
      exact hskip (k + 1) (by omega) x (by simpa using hx)
    | zero =>
      rw [rangeFrom, List.enumFrom_cons]
      by_cases hb : b < 128
      · rw [decodeRune_ascii b bs hb]
        have hb2 : isASCII (i, b) = true := by simp [isASCII]; omega
        rw [List.filter_cons_of_pos hb2, List.filter_cons_of_pos hb2]
        congr 1
        apply ih
        intro k hk; omega
      · have hb1 : 128 ≤ b := by omega
        obtain ⟨h1, h2⟩ := decodeRune_high b bs hb1
        have hb2 : isASCII (i, b) = false := by simp [isASCII]; omega
        have hb3 : isASCII (i, (decodeRune (b :: bs)).1) = false := by simp [isASCII]; omega
        rw [List.filter_cons_of_neg (by simp [hb3]), List.filter_cons_of_neg (by simp [hb2])]
        exact ih _ _ h2

theorem rangeString_filter (s : Bytes) :
    (rangeString s).filter isASCII = (List.enumFrom 0 s).filter isASCII :=
  rangeFrom_filter s 0 0 (by intro k hk; omega)

theorem extractNamespaceLoop_filter (l : List (Nat × Nat)) :
    extractNamespaceLoop (l.filter isASCII) = extractNamespaceLoop l := by
  induction l with
  | nil => rfl
  | cons p tl ih =>
    obtain ⟨i, c⟩ := p
    by_cases hc : c < 128
    · have : isASCII (i, c) = true := by simp [isASCII]; omega
      rw [List.filter_cons_of_pos this]
      simp only [extractNamespaceLoop, ih]
    · have : isASCII (i, c) = false := by simp [isASCII]; omega
      rw [List.filter_cons_of_neg (by simp [this])]
      have h1 : c ≠ chComma := by simp [chComma]; omega
      have h2 : c ≠ chQuote := by simp [chQuote]; omega
      simp only [extractNamespaceLoop, h1, h2, if_false, ih]

theorem decodePacketLoop_filter (l : List (Nat × Nat)) : ∀ st : PacketScan,
    decodePacketLoop (l.filter isASCII) st = decodePacketLoop l st := by
  induction l with
  | nil => intro st; rfl
  | cons p tl ih =>
    intro st
    obtain ⟨i, c⟩ := p
    by_cases hc : c < 128
    · have : isASCII (i, c) = true := by simp [isASCII]; omega
      rw [List.filter_cons_of_pos this]
      simp only [decodePacketLoop, ih]
    · have : isASCII (i, c) = false := by simp [isASCII]; omega
      rw [List.filter_cons_of_neg (by simp [this])]
      have h1 : c ≠ chComma := by simp [chComma]; omega
      have h2 : c ≠ chQuote := by simp [chQuote]; omega
      simp only [decodePacketLoop, h1, h2, if_false, ih]

/-- The loop of `extractNamespace` may be read byte by byte. -/
theorem extractNamespaceLoop_range (s : Bytes) :
    extractNamespaceLoop (rangeString s) = extractNamespaceLoop (List.enumFrom 0 s) := by
  rw [← extractNamespaceLoop_filter, rangeString_filter, extractNamespaceLoop_filter]

/-- The loop of `decodePacket` may be read byte by byte. -/
theorem decodePacketLoop_range (s : Bytes) (st : PacketScan) :
    decodePacketLoop (rangeString s) st = decodePacketLoop (List.enumFrom 0 s) st := by
  rw [← decodePacketLoop_filter, rangeString_filter, decodePacketLoop_filter]

/-! ## Lemmas: the constants as bytes -/

theorem OpenMessage_eq : OpenMessage = [48] := by decide
theorem CloseMessage_eq : CloseMessage = [49] := by decide
theorem PingMessage_eq : PingMessage = [50] := by decide
theorem PongMessage_eq : PongMessage = [51] := by decide
theorem RegularMessage_eq : RegularMessage = [52] := by decide
theorem EmptyMessage_eq : EmptyMessage = [52, 48] := by decide
theorem NamespaceClose_eq : NamespaceClose = [52, 49] := by decide
theorem CommonMessage_eq : CommonMessage = [52, 50] := by decide
theorem AckMessage_eq : AckMessage = [52, 51] := by decide
theorem ErrorMessage_eq : ErrorMessage = [52, 52] := by decide
theorem MessageTypeOpen_eq : MessageTypeOpen = [48] := by decide
theorem MessageTypeClose_eq : MessageTypeClose = [49] := by decide
theorem MessageTypePing_eq : MessageTypePing = [50] := by decide
theorem MessageTypePong_eq : MessageTypePong = [51] := by decide
theorem MessageTypeEmpty_eq : MessageTypeEmpty = [101, 109, 112, 116, 121] := by decide
theorem MessageTypeEmit_eq : MessageTypeEmit = [101, 109, 105, 116] := by decide
theorem MessageTypeAckRequest_eq :
    MessageTypeAckRequest = [97, 99, 107, 95, 114, 101, 113, 117, 101, 115, 116] := by decide
theorem MessageTypeAckResponse_eq :
    MessageTypeAckResponse = [97, 99, 107, 95, 114, 101, 115, 112, 111, 110, 115, 101] := by
  decide
theorem MessageTypeNamespace_eq :
    MessageTypeNamespace = [110, 97, 109, 101, 115, 112, 97, 99, 101] := by decide
theorem MessageTypeError_eq : MessageTypeError = [101, 114, 114, 111, 114] := by decide

/-! ## Lemmas: `Decode` on the frames `40`, `42` and `43` -/

/-- What `Decode` does with a frame `42…` that has a byte after the prefix. -/
theorem Decode_common (body : Bytes) (h : body ≠ []) :
    Decode (52 :: 50 :: body) =
      (extractNamespace body).bind fun nr =>
        (decodePacket nr.2).bind fun r =>
          some (some { Namespace := nr.1, Method := r.1, Type_ := MessageTypeEmit, AckID := 0,
                       Data := r.2.1, Source := 52 :: 50 :: body }, r.2.2) := by
  obtain ⟨b, bs, rfl⟩ := List.exists_cons_of_ne_nil h
  simp [Decode, slice, sliceFrom, getMessageType, getRegularMessageType, OpenMessage_eq,
    CloseMessage_eq, PingMessage_eq, PongMessage_eq, RegularMessage_eq, EmptyMessage_eq,
    NamespaceClose_eq, CommonMessage_eq, AckMessage_eq, ErrorMessage_eq, MessageTypeOpen_eq,
    MessageTypeClose_eq, MessageTypePing_eq, MessageTypePong_eq, MessageTypeEmpty_eq,
    MessageTypeEmit_eq, MessageTypeAckRequest_eq, MessageTypeAckResponse_eq, MessageTypeError_eq]
  cases extractNamespace (b :: bs) <;> simp

/-- What `Decode` does with a frame `43…` that has a byte after the prefix. -/
theorem Decode_ack (body : Bytes) (h : body ≠ []) :
    Decode (52 :: 51 :: body) =
      (extractNamespace body).bind fun nr =>
        (getAckFromPacket nr.2).bind fun r =>
          match r with
          | .error err => some (none, some err)
          | .ok (ack, rest) =>
            some (some { Namespace := nr.1, Method := [], Type_ := MessageTypeAckResponse,
                         AckID := ack, Data := rest, Source := 52 :: 51 :: body }, none) := by
  obtain ⟨b, bs, rfl⟩ := List.exists_cons_of_ne_nil h
  simp [Decode, slice, sliceFrom, getMessageType, getRegularMessageType, OpenMessage_eq,
    CloseMessage_eq, PingMessage_eq, PongMessage_eq, RegularMessage_eq, EmptyMessage_eq,
    NamespaceClose_eq, CommonMessage_eq, AckMessage_eq, ErrorMessage_eq, MessageTypeOpen_eq,
    MessageTypeClose_eq, MessageTypePing_eq, MessageTypePong_eq, MessageTypeEmpty_eq,
    MessageTypeEmit_eq, MessageTypeAckRequest_eq, MessageTypeAckResponse_eq, MessageTypeError_eq]
  cases extractNamespace (b :: bs) <;> simp

/-- What `Decode` does with a frame `40…` that has a byte after the prefix. -/
theorem Decode_empty (body : Bytes) (h : body ≠ []) :
    Decode (52 :: 48 :: body) =
      (extractNamespace body).bind fun nr =>
        some (some { Namespace := nr.1, Method := OnConnection, Type_ := MessageTypeEmpty,
                     AckID := 0, Data := [], Source := 52 :: 48 :: body }, none) := by
  obtain ⟨b, bs, rfl⟩ := List.exists_cons_of_ne_nil h
  simp [Decode, slice, sliceFrom, getMessageType, getRegularMessageType, OpenMessage_eq,
    CloseMessage_eq, PingMessage_eq, PongMessage_eq, RegularMessage_eq, EmptyMessage_eq,
    NamespaceClose_eq, CommonMessage_eq, AckMessage_eq, ErrorMessage_eq, MessageTypeOpen_eq,
    MessageTypeClose_eq, MessageTypePing_eq, MessageTypePong_eq, MessageTypeEmpty_eq,
    MessageTypeEmit_eq, MessageTypeAckRequest_eq, MessageTypeAckResponse_eq, MessageTypeError_eq]
  cases extractNamespace (b :: bs) <;> simp

/-! ## Lemmas: slicing -/

theorem sliceFrom_append (a b : Bytes) : sliceFrom (a ++ b) a.length = some b := by
  have h : List.take (a.length + b.length) (a ++ b) = a ++ b :=
    List.take_of_length_le (by simp)
  simp [sliceFrom, slice, h]

theorem slice_prefix (a b : Bytes) : slice (a ++ b) 0 a.length = some a := by
  simp [slice]

theorem slice_middle (a b c : Bytes) :
    slice (a ++ b ++ c) a.length (a.length + b.length) = some b := by
  have h : List.take (a.length + b.length) (a ++ (b ++ c)) = a ++ b := by
    rw [← List.length_append, ← List.append_assoc]; exact List.take_left' rfl
  simp [slice, h]

/-! ## Lemmas: the two loops read byte by byte -/

theorem extractNamespaceLoop_comma (pre r : Bytes)
    (hpre : ∀ b ∈ pre, b ≠ chComma ∧ b ≠ chQuote) : ∀ i,
    extractNamespaceLoop (List.enumFrom i (pre ++ chComma :: r)) = some (i + pre.length) := by
  induction pre with
  | nil => intro i; simp [extractNamespaceLoop]
  | cons b bs ih =>
    intro i
    have hb := hpre b (by simp)
    rw [List.cons_append, List.enumFrom_cons]
    simp only [extractNamespaceLoop, hb.1, hb.2, if_false]
    rw [ih (fun x hx => hpre x (by simp [hx]))]
    simp; omega

theorem extractNamespaceLoop_quote (pre r : Bytes)
    (hpre : ∀ b ∈ pre, b ≠ chComma ∧ b ≠ chQuote) : ∀ i,
    extractNamespaceLoop (List.enumFrom i (pre ++ chQuote :: r)) = none := by
  induction pre with
  | nil => intro i; simp [extractNamespaceLoop]
  | cons b bs ih =>
    intro i
    have hb := hpre b (by simp)
    rw [List.cons_append, List.enumFrom_cons]
    simp only [extractNamespaceLoop, hb.1, hb.2, if_false]
    exact ih (fun x hx => hpre x (by simp [hx])) _

theorem extractNamespaceLoop_plain (s : Bytes)
    (hs : ∀ b ∈ s, b ≠ chComma ∧ b ≠ chQuote) : ∀ i,
    extractNamespaceLoop (List.enumFrom i s) = some 0 := by
  induction s with
  | nil => intro i; simp [extractNamespaceLoop]
  | cons b bs ih =>
    intro i
    have hb := hs b (by simp)
    simp only [List.enumFrom_cons, extractNamespaceLoop, hb.1, hb.2, if_false]
    exact ih (fun x hx => hs x (by simp [hx])) _

/-- The namespace of `ns,rest`. -/
theorem extractNamespace_comma (ns r : Bytes)
    (hns : ∀ b ∈ ns, b ≠ chComma ∧ b ≠ chQuote) :
    extractNamespace (ns ++ chComma :: r) = some (ns, r) := by
  have hlen : (ns ++ chComma :: r).length ≠ 0 := by simp
  simp only [extractNamespace, hlen, if_false, extractNamespaceLoop_range,
    extractNamespaceLoop_comma ns r hns 0]
  rw [Nat.zero_add, slice_prefix]
  cases r with
  | nil => simp
  | cons x xs =>
    have h1 : (ns ++ chComma :: x :: xs).length > ns.length + 1 := by simp
    have h2 : sliceFrom (ns ++ chComma :: x :: xs) (ns.length + 1) = some (x :: xs) := by
      have := sliceFrom_append (ns ++ [chComma]) (x :: xs)
      simpa using this
    simp [h1, h2]

/-- No namespace when a `"` comes before any `,`. -/
theorem extractNamespace_quote (pre r : Bytes)
    (hpre : ∀ b ∈ pre, b ≠ chComma ∧ b ≠ chQuote) :
    extractNamespace (pre ++ chQuote :: r) = some ([], pre ++ chQuote :: r) := by
  have hlen : (pre ++ chQuote :: r).length ≠ 0 := by simp
  simp only [extractNamespace, hlen, if_false, extractNamespaceLoop_range,
    extractNamespaceLoop_quote pre r hpre 0]

/-- Before the second `"`, bytes other than `"` leave the variables of
`decodePacket` as they are (a `,` is skipped by `continue`). -/
theorem decodePacketLoop_skip (pre r : Bytes) (hpre : ∀ b ∈ pre, b ≠ chQuote)
    (st : PacketScan) (hst : st.countQuote < 2) : ∀ i,
    decodePacketLoop (List.enumFrom i (pre ++ r)) st =
      decodePacketLoop (List.enumFrom (i + pre.length) r) st := by
  induction pre with
  | nil => intro i; simp
  | cons b bs ih =>
    intro i
    have hb := hpre b (by simp)
    rw [List.cons_append, List.enumFrom_cons]
    simp only [decodePacketLoop, hb, if_false, hst, if_true, ite_self]
    rw [ih (fun x hx => hpre x (by simp [hx]))]
    simp only [List.length_cons]
    congr 2
    omega

/-- The loop of `decodePacket` on `["m",r`. -/
theorem decodePacketLoop_event (m r : Bytes) (hm : ∀ b ∈ m, b ≠ chQuote) :
    decodePacketLoop (List.enumFrom 0 (chLBracket :: chQuote :: (m ++ chQuote :: chComma :: r))) {} =
      some { start := 2, end_ := 2 + m.length, rest := 4 + m.length, countQuote := 2 } := by
  simp only [List.enumFrom_cons, decodePacketLoop, quoteStep]
  simp only [chLBracket, chQuote, chComma, Nat.reduceEqDiff, if_false, if_true]
  simp only [Nat.reduceAdd, Nat.lt_irrefl, Nat.reduceLT, if_true]
  rw [decodePacketLoop_skip m _ hm _ (by simp)]
  simp [decodePacketLoop, quoteStep, List.enumFrom_cons]
  omega

/-- The loop of `decodePacket` on `["m"]`. -/
theorem decodePacketLoop_bare (m : Bytes) (hm : ∀ b ∈ m, b ≠ chQuote) :
    decodePacketLoop (List.enumFrom 0 (chLBracket :: chQuote :: (m ++ [chQuote, chRBracket]))) {} =
      some { start := 2, end_ := 2 + m.length, rest := 3 + m.length, countQuote := 2 } := by
  simp only [List.enumFrom_cons, decodePacketLoop, quoteStep]
  simp only [chLBracket, chQuote, chComma, Nat.reduceEqDiff, if_false, if_true]
  simp only [Nat.reduceAdd, Nat.lt_irrefl, Nat.reduceLT, if_true]
  rw [decodePacketLoop_skip m _ hm _ (by simp)]
  simp [decodePacketLoop, quoteStep, List.enumFrom_cons]
  omega

/-- The packet `["m",r` with `r` not empty: method `m`, data `[r`. -/
theorem decodePacket_event (m r : Bytes) (hm : ∀ b ∈ m, b ≠ chQuote) (hr : r ≠ []) :
    decodePacket (chLBracket :: chQuote :: (m ++ chQuote :: chComma :: r)) =
      some (m, chLBracket :: r, none) := by
  have h1 : sliceFrom (chLBracket :: chQuote :: (m ++ chQuote :: chComma :: r)) (4 + m.length)
      = some r := by
    have := sliceFrom_append ([chLBracket, chQuote] ++ m ++ [chQuote, chComma]) r
    simp only [List.length_append, List.length_cons, List.length_nil] at this
    rw [show 4 + m.length = 0 + 1 + 1 + m.length + (0 + 1 + 1) by omega, ← this]
    simp
  have h2 : slice (chLBracket :: chQuote :: (m ++ chQuote :: chComma :: r)) 2 (2 + m.length)
      = some m := by
    have := slice_middle [chLBracket, chQuote] m (chQuote :: chComma :: r)
    simpa using this
  have h3 : ¬ (2 + m.length < 2 ∨
      4 + m.length ≥ (chLBracket :: chQuote :: (m ++ chQuote :: chComma :: r)).length) := by
    have : 0 < r.length := List.length_pos.mpr hr
    simp only [List.length_cons, List.length_append]
    omega
  simp only [decodePacket, decodePacketLoop_range, decodePacketLoop_event m r hm]
  rw [if_neg h3, h1, h2]
  rfl

/-- The packet `["m"]`: method `m`, data `[]`. -/
theorem decodePacket_bare (m : Bytes) (hm : ∀ b ∈ m, b ≠ chQuote) :
    decodePacket (chLBracket :: chQuote :: (m ++ [chQuote, chRBracket])) =
      some (m, [chLBracket, chRBracket], none) := by
  have h1 : sliceFrom (chLBracket :: chQuote :: (m ++ [chQuote, chRBracket])) (3 + m.length)
      = some [chRBracket] := by
    have := sliceFrom_append ([chLBracket, chQuote] ++ m ++ [chQuote]) [chRBracket]
    simp only [List.length_append, List.length_cons, List.length_nil] at this
    rw [show 3 + m.length = 0 + 1 + 1 + m.length + (0 + 1) by omega, ← this]
    simp
  have h2 : slice (chLBracket :: chQuote :: (m ++ [chQuote, chRBracket])) 2 (2 + m.length)
      = some m := by
    have := slice_middle [chLBracket, chQuote] m [chQuote, chRBracket]
    simpa using this
  have h3 : ¬ (2 + m.length < 2 ∨
      3 + m.length ≥ (chLBracket :: chQuote :: (m ++ [chQuote, chRBracket])).length) := by
    simp only [List.length_cons, List.length_append, List.length_nil]
    omega
  simp only [decodePacket, decodePacketLoop_range, decodePacketLoop_bare m hm]
  rw [if_neg h3, h1, h2]
  rfl

/-- What `Decode` makes of an event frame. -/
theorem Decode_eventFrame (ns m r : Bytes)
    (hns : ∀ b ∈ ns, b ≠ chComma ∧ b ≠ chQuote) (hm : ∀ b ∈ m, b ≠ chQuote) (hr : r ≠ []) :
    Decode (eventFrame ns m r) =
      some (some { Namespace := ns, Method := m, Type_ := MessageTypeEmit, AckID := 0,
                   Data := chLBracket :: r, Source := eventFrame ns m r }, none) := by
  have h42 : ascii "42" = [52, 50] := by decide
  by_cases h : ns = []
  · subst h
    have e : eventFrame [] m r =
        52 :: 50 :: ([chLBracket] ++ chQuote :: (m ++ chQuote :: chComma :: r)) := by
      simp [eventFrame, h42]
    rw [e, Decode_common _ (by simp), extractNamespace_quote [chLBracket] _ (by simp)]
    simp [decodePacket_event m r hm hr]
  · have e : eventFrame ns m r =
        52 :: 50 :: (ns ++ chComma :: (chLBracket :: chQuote :: (m ++ chQuote :: chComma :: r))) := by
      simp [eventFrame, h42, h]
    rw [e, Decode_common _ (by simp), extractNamespace_comma ns _ hns]
    simp [decodePacket_event m r hm hr]

theorem wireNamespace_bytes (ns : Bytes) (h : wireNamespace ns) :
    ∀ b ∈ ns, b ≠ chComma ∧ b ≠ chQuote := by
  rcases h with rfl | ⟨_, h⟩
  · simp
  · exact h

/-! ## Lemmas: decimal digits and `Atoi` -/

theorem natDigits_digit (fuel : Nat) : ∀ n, ∀ b ∈ natDigits fuel n, 48 ≤ b ∧ b ≤ 57 := by
  induction fuel with
  | zero => intro n b hb; simp [natDigits] at hb
  | succ fuel ih =>
    intro n b hb
    unfold natDigits at hb
    split_ifs at hb with h
    · simp [chZero] at hb; omega
    · rcases List.mem_append.mp hb with h1 | h1
      · exact ih _ b h1
      · simp [chZero] at h1; omega

theorem natDigits_ne_nil (fuel n : Nat) (h : n < fuel) : natDigits fuel n ≠ [] := by
  cases fuel with
  | zero => omega
  | succ fuel =>
    unfold natDigits
    split_ifs <;> simp

theorem itoaNat_digit (n : Nat) : ∀ b ∈ itoaNat n, 48 ≤ b ∧ b ≤ 57 :=
  natDigits_digit (n + 1) n

theorem itoaNat_ne_nil (n : Nat) : itoaNat n ≠ [] :=
  natDigits_ne_nil (n + 1) n (by omega)

theorem parseUintLoop_append (xs ys : Bytes) : ∀ acc,
    parseUintLoop (xs ++ ys) acc =
      match parseUintLoop xs acc with
      | .ok v => parseUintLoop ys v
      | .error k => .error k := by
  induction xs with
  | nil => intro acc; simp [parseUintLoop]
  | cons x xs ih =>
    intro acc
    rw [List.cons_append]
    simp only [parseUintLoop]
    split_ifs <;> simp [ih]

/-- The fuel of `natDigits` is enough, and `ParseUint` reads the digits back. -/
theorem parseUintLoop_natDigits (fuel : Nat) : ∀ n, n < fuel → n < 2 ^ 64 →
    parseUintLoop (natDigits fuel n) 0 = .ok n := by
  induction fuel with
  | zero => intro n h; omega
  | succ fuel ih =>
    intro n h hn
    have hn2 : ¬ (n > 2 ^ 64 - 1) := by norm_num at hn ⊢; omega
    unfold natDigits
    split_ifs with h10
    · have h1 : chZero ≤ chZero + n ∧ chZero + n ≤ 57 := by simp [chZero]; omega
      have h0 : ¬ (0 ≥ (2 ^ 64 - 1) / 10 + 1) := by norm_num
      have h4 : 0 * 10 + (chZero + n - chZero) = n := by simp
      simp only [parseUintLoop, h1, h0, h4, hn2, and_self, if_true, if_false]
    · rw [parseUintLoop_append, ih (n / 10) (by omega) (by omega)]
      have h1 : chZero ≤ chZero + n % 10 ∧ chZero + n % 10 ≤ 57 := by simp [chZero]; omega
      have h2 : ¬ (n / 10 ≥ (2 ^ 64 - 1) / 10 + 1) := by
        norm_num at hn ⊢; omega
      have h4 : n / 10 * 10 + (chZero + n % 10 - chZero) = n := by simp; omega
      simp only [parseUintLoop, h1, h2, h4, hn2, and_self, if_true, if_false]

/-- Reading back: `Atoi` of the decimal digits of a number that fits in an `int`. -/
theorem Atoi_itoaNat (n : Nat) (hn : n < 2 ^ 63) : Atoi (itoaNat n) = .ok (n : Int) := by
  have hp : parseUintLoop (itoaNat n) 0 = .ok n :=
    parseUintLoop_natDigits (n + 1) n (by omega) (by norm_num at hn ⊢; omega)
  obtain ⟨c, cs, hcs⟩ := List.exists_cons_of_ne_nil (itoaNat_ne_nil n)
  have hc := itoaNat_digit n c (by simp [hcs])
  rw [hcs] at hp
  rw [hcs]
  have h1 : c ≠ chPlus := by simp [chPlus]; omega
  have h2 : c ≠ chMinus := by simp [chMinus]; omega
  have h3 : ¬ (n ≥ 2 ^ 63) := by omega
  simp only [Atoi, h1, h2, hp, h3, or_self, if_false, decide_False, reduceCtorEq,
    false_and, and_false, Bool.false_eq_true]

theorem indexByte_append (pre r : Bytes) (c : Nat) (hpre : ∀ b ∈ pre, b ≠ c) :
    indexByte (pre ++ c :: r) c = some pre.length := by
  induction pre with
  | nil => simp [indexByte]
  | cons b bs ih =>
    have hb := hpre b (by simp)
    rw [List.cons_append]
    simp only [indexByte, hb, if_false]
    rw [ih (fun x hx => hpre x (by simp [hx]))]
    simp

/-- The packet `digits(n)` + `[…`: ack id `n`, and the text from the `[` on. -/
theorem getAckFromPacket_digits (n : Nat) (hn : n < 2 ^ 63) (r : Bytes) :
    getAckFromPacket (itoaNat n ++ chLBracket :: r) =
      some (.ok ((n : Int), chLBracket :: r)) := by
  have hlen : ¬ (itoaNat n ++ chLBracket :: r).length < 2 := by
    have := List.length_pos.mpr (itoaNat_ne_nil n)
    simp; omega
  have hidx : indexByte (itoaNat n ++ chLBracket :: r) chLBracket = some (itoaNat n).length :=
    indexByte_append _ _ _ (fun b hb => by
      have := itoaNat_digit n b hb
      simp [chLBracket]; omega)
  simp only [getAckFromPacket, hlen, if_false, hidx, slice_prefix, sliceFrom_append]
  simp [Atoi_itoaNat n hn]

/-- What `Decode` makes of `43` + digits + an array in which a `"` comes
before any `,`. -/
theorem Decode_ackFrame (n : Nat) (hn : n < 2 ^ 63) (pre rest : Bytes)
    (hpre : ∀ b ∈ pre, b ≠ chComma ∧ b ≠ chQuote) :
    Decode (ascii "43" ++ itoaNat n ++ chLBracket :: (pre ++ chQuote :: rest)) =
      some (some { Namespace := [], Method := [], Type_ := MessageTypeAckResponse,
                   AckID := (n : Int), Data := chLBracket :: (pre ++ chQuote :: rest),
                   Source := ascii "43" ++ itoaNat n ++ chLBracket :: (pre ++ chQuote :: rest) },
        none) := by
  have h43 : ascii "43" = [52, 51] := by decide
  have e : ascii "43" ++ itoaNat n ++ chLBracket :: (pre ++ chQuote :: rest) =
      52 :: 51 :: ((itoaNat n ++ chLBracket :: pre) ++ chQuote :: rest) := by
    simp [h43]
  have hq : ∀ b ∈ itoaNat n ++ chLBracket :: pre, b ≠ chComma ∧ b ≠ chQuote := by
    intro b hb
    rcases List.mem_append.mp hb with h1 | h1
    · have := itoaNat_digit n b h1
      simp [chComma, chQuote]; omega
    · rcases List.mem_cons.mp h1 with h2 | h2
      · subst h2; simp [chLBracket, chComma, chQuote]
      · exact hpre b h2
  rw [e, Decode_ack _ (by simp), extractNamespace_quote _ _ hq]
  have e2 : (itoaNat n ++ chLBracket :: pre) ++ chQuote :: rest =
      itoaNat n ++ chLBracket :: (pre ++ chQuote :: rest) := by simp
  simp [e2, getAckFromPacket_digits n hn]

/-! ## Lemmas: the errors of `Decode` -/

theorem Atoi_cases (s : Bytes) :
    (∃ v, Atoi s = .ok v) ∨ (∃ k, Atoi s = .error (.NumError s k)) := by
  unfold Atoi
  split
  · exact Or.inr ⟨_, rfl⟩
  · simp only
    split_ifs
    all_goals first
      | exact Or.inr ⟨_, rfl⟩
      | (split
         · exact Or.inr ⟨_, rfl⟩
         · split_ifs
           all_goals first
             | exact Or.inr ⟨_, rfl⟩
             | exact Or.inl ⟨_, rfl⟩)

theorem Atoi_error (s : Bytes) (e : Error) (h : Atoi s = .error e) :
    e ≠ .ErrorWrongMessageType := by
  rcases Atoi_cases s with ⟨v, hv⟩ | ⟨k, hk⟩
  · rw [hv] at h; cases h
  · rw [hk] at h; cases h; simp

theorem getAckFromPacket_error (text : Bytes) (e : Error)
    (h : getAckFromPacket text = some (.error e)) : e ≠ .ErrorWrongMessageType := by
  unfold getAckFromPacket at h
  split at h
  · cases h; simp
  · split at h
    · cases h; simp
    · next pos _ =>
      cases hs : slice text 0 pos with
      | none => rw [hs] at h; cases h
      | some num =>
        rw [hs] at h
        simp only [Option.some_bind] at h
        split at h
        · next err hA =>
          cases h
          exact Atoi_error _ _ hA
        · cases hr : sliceFrom text pos with
          | none => rw [hr] at h; cases h
          | some r => rw [hr] at h; cases h

theorem decodePacket_error (input method packet : Bytes) (e : Error)
    (h : decodePacket input = some (method, packet, some e)) : e = .ErrorWrongPacket := by
  unfold decodePacket at h
  split at h
  · cases h; rfl
  · next st _ =>
    split at h
    · cases h; rfl
    · cases h1 : sliceFrom input st.rest with
      | none => rw [h1] at h; cases h
      | some t =>
        rw [h1] at h
        simp only [Option.some_bind] at h
        cases h2 : slice input st.start st.end_ with
        | none => rw [h2] at h; cases h
        | some m => rw [h2] at h; cases h

theorem Decode_unrecognised (source : Bytes) (h : unrecognisedFrame source) :
    Decode source = some (none, some .ErrorWrongMessageType) := by
  cases source with
  | nil => rfl
  | cons b rest =>
    simp only [unrecognisedFrame, isTypeDigit] at h
    rcases h with h | ⟨rfl, h⟩
    · have h48 : b ≠ 48 := fun e => h (Or.inl e)
      have h49 : b ≠ 49 := fun e => h (Or.inr (Or.inl e))
      have h50 : b ≠ 50 := fun e => h (Or.inr (Or.inr (Or.inl e)))
      have h51 : b ≠ 51 := fun e => h (Or.inr (Or.inr (Or.inr (Or.inl e))))
      have h52 : b ≠ 52 := fun e => h (Or.inr (Or.inr (Or.inr (Or.inr e))))
      simp [Decode, slice, getMessageType, OpenMessage_eq, CloseMessage_eq, PingMessage_eq,
        PongMessage_eq, RegularMessage_eq, h48, h49, h50, h51, h52]
    · cases rest with
      | nil => decide
      | cons c tl =>
        have hc := h c (by simp)
        have h48 : c ≠ 48 := fun e => hc (Or.inl e)
        have h49 : c ≠ 49 := fun e => hc (Or.inr (Or.inl e))
        have h50 : c ≠ 50 := fun e => hc (Or.inr (Or.inr (Or.inl e)))
        have h51 : c ≠ 51 := fun e => hc (Or.inr (Or.inr (Or.inr (Or.inl e))))
        have h52 : c ≠ 52 := fun e => hc (Or.inr (Or.inr (Or.inr (Or.inr e))))
        simp [Decode, slice, getMessageType, getRegularMessageType, OpenMessage_eq,
          CloseMessage_eq, PingMessage_eq, PongMessage_eq, RegularMessage_eq, EmptyMessage_eq,
          NamespaceClose_eq, CommonMessage_eq, AckMessage_eq, ErrorMessage_eq,
          h48, h49, h50, h51, h52]

/-- A frame whose type is one of Close, Ping, Pong, Empty and Error decodes
without an error. -/
theorem Decode_noPayload (b : Nat) (rest t : Bytes) (hb : b ≠ 48)
    (ht : getMessageType (b :: rest) = some (.ok t))
    (hs : t = MessageTypeClose ∨ t = MessageTypePing ∨ t = MessageTypePong ∨
      t = MessageTypeEmpty ∨ t = MessageTypeError)
    (msg : Option Message) (err : Option Error) (h : Decode (b :: rest) = some (msg, err)) :
    err = none := by
  have hsl : slice (b :: rest) 0 1 = some [b] := by simp [slice]
  simp only [Decode, hsl, ht, Option.some_bind, OpenMessage_eq, List.length_cons] at h
  simp only [Nat.add_one_ne_zero, if_false, List.cons.injEq, hb, and_true] at h
  by_cases h2 : rest.length + 1 > 2
  · simp only [h2, if_true] at h
    cases hd : sliceFrom (b :: rest) 2 with
    | none => simp [hd] at h
    | some d =>
      cases hn : extractNamespace d with
      | none => simp [hd, hn] at h
      | some nr =>
        simp only [hd, hn, Option.some_bind] at h
        rcases hs with rfl | rfl | rfl | rfl | rfl <;>
          simp [MessageTypeClose_eq, MessageTypePing_eq, MessageTypePong_eq,
            MessageTypeEmpty_eq, MessageTypeError_eq] at h <;> exact h.2.symm
  · simp only [h2, if_false, Option.some_bind] at h
    rcases hs with rfl | rfl | rfl | rfl | rfl <;>
      simp [MessageTypeClose_eq, MessageTypePing_eq, MessageTypePong_eq,
        MessageTypeEmpty_eq, MessageTypeError_eq] at h <;> exact h.2.symm

theorem getMessageType_simple (b : Nat) (rest : Bytes) :
    (b = 49 → getMessageType (b :: rest) = some (.ok MessageTypeClose)) ∧
    (b = 50 → getMessageType (b :: rest) = some (.ok MessageTypePing)) ∧
    (b = 51 → getMessageType (b :: rest) = some (.ok MessageTypePong)) := by
  refine ⟨?_, ?_, ?_⟩ <;> rintro rfl <;>
    simp [getMessageType, slice, OpenMessage_eq, CloseMessage_eq, PingMessage_eq, PongMessage_eq]

theorem getMessageType_regular (c : Nat) (tl : Bytes) :
    (c = 48 → getMessageType (52 :: c :: tl) = some (.ok MessageTypeEmpty)) ∧
    (c = 49 → getMessageType (52 :: c :: tl) = some (.ok MessageTypeClose)) ∧
    (c = 52 → getMessageType (52 :: c :: tl) = some (.ok MessageTypeError)) := by
  refine ⟨?_, ?_, ?_⟩ <;> rintro rfl <;>
    simp [getMessageType, getRegularMessageType, slice, OpenMessage_eq, CloseMessage_eq,
      PingMessage_eq, PongMessage_eq, RegularMessage_eq, EmptyMessage_eq, NamespaceClose_eq,
      CommonMessage_eq, AckMessage_eq, ErrorMessage_eq]

/-- Only an unrecognised frame gives `ErrorWrongMessageType`. -/
theorem Decode_wrongType_inv (source : Bytes) (msg : Option Message)
    (h : Decode source = some (msg, some .ErrorWrongMessageType)) :
    unrecognisedFrame source := by
  cases source with
  | nil => trivial
  | cons b rest =>
    by_cases hb : isTypeDigit b
    swap
    · exact Or.inl hb
    rcases hb with rfl | rfl | rfl | rfl | rfl
    · simp [Decode, slice, sliceFrom, OpenMessage_eq] at h
      split_ifs at h <;> simp at h
    · have := Decode_noPayload 49 rest _ (by decide) ((getMessageType_simple 49 rest).1 rfl)
        (Or.inl rfl) _ _ h
      cases this
    · have := Decode_noPayload 50 rest _ (by decide) ((getMessageType_simple 50 rest).2.1 rfl)
        (Or.inr (Or.inl rfl)) _ _ h
      cases this
    · have := Decode_noPayload 51 rest _ (by decide) ((getMessageType_simple 51 rest).2.2 rfl)
        (Or.inr (Or.inr (Or.inl rfl))) _ _ h
      cases this
    · cases rest with
      | nil => exact Or.inr ⟨rfl, by simp⟩
      | cons c tl =>
        by_cases hc : isTypeDigit c
        swap
        · exact Or.inr ⟨rfl, by simpa using hc⟩
        exfalso
        rcases hc with rfl | rfl | rfl | rfl | rfl
        · have := Decode_noPayload 52 (48 :: tl) _ (by decide)
            ((getMessageType_regular 48 tl).1 rfl) (Or.inr (Or.inr (Or.inr (Or.inl rfl)))) _ _ h
          cases this
        · have := Decode_noPayload 52 (49 :: tl) _ (by decide)
            ((getMessageType_regular 49 tl).2.1 rfl) (Or.inl rfl) _ _ h
          cases this
        · cases tl with
          | nil =>
            have hd : (Decode [52, 50]).map Prod.snd = some none := by decide
            rw [h] at hd
            cases hd
          | cons x xs =>
            rw [Decode_common _ (by simp)] at h
            cases hn : extractNamespace (x :: xs) with
            | none => simp [hn] at h
            | some nr =>
              cases hp : decodePacket nr.2 with
              | none => simp [hn, hp] at h
              | some r =>
                obtain ⟨m, p, e⟩ := r
                simp only [hn, hp, Option.some_bind] at h
                have he : e = some .ErrorWrongMessageType := by
                  have := congrArg (fun o => o.map Prod.snd) h
                  simpa using this
                subst he
                have := decodePacket_error _ _ _ _ hp
                cases this
        · cases tl with
          | nil =>
            have hd : (Decode [52, 51]).map Prod.snd = some (some .ErrorWrongPacket) := by decide
            rw [h] at hd
            cases hd
          | cons x xs =>
            rw [Decode_ack _ (by simp)] at h
            cases hn : extractNamespace (x :: xs) with
            | none => simp [hn] at h
            | some nr =>
              cases hp : getAckFromPacket nr.2 with
              | none => simp [hn, hp] at h
              | some r =>
                simp only [hn, hp, Option.some_bind] at h
                cases r with
                | error e =>
                  have he : e = .ErrorWrongMessageType := by
                    have := congrArg (fun o => o.map Prod.snd) h
                    simpa using this
                  subst he
                  exact getAckFromPacket_error _ _ hp rfl
                | ok v =>
                  have := congrArg (fun o => o.map Prod.snd) h
                  simp at this
        · have := Decode_noPayload 52 (52 :: tl) _ (by decide)
            ((getMessageType_regular 52 tl).2.2 rfl) (Or.inr (Or.inr (Or.inr (Or.inr rfl)))) _ _ h
          cases this

/-! ## Lemmas: JSON strings -/

theorem decodeRune_width (s : Bytes) : (decodeRune s).2 ≤ 4 := by
  unfold decodeRune
  split
  · simp
  · split_ifs
    · simp
    · split
      · dsimp only
        split_ifs <;> simp
      · simp
    · split
      · dsimp only
        split_ifs <;> simp
      · simp
    · split
      · dsimp only
        split_ifs <;> simp
      · simp
    · simp

theorem jsonEscape_length (b : Nat) : 2 ≤ (jsonEscape b).length := by
  unfold jsonEscape
  split_ifs <;> simp

theorem jsonStringBody_length (s : Bytes) : ∀ (skip : Nat) (keep : Bool),
    s.length ≤ (jsonStringBody skip keep s).length + (if keep then 0 else skip) := by
  induction s with
  | nil => intro skip keep; simp
  | cons b bs ih =>
    intro skip keep
    cases skip with
    | succ skip =>
      cases keep with
      | true =>
        have := ih skip true
        simp [jsonStringBody] at this ⊢
        omega
      | false =>
        have := ih skip false
        simp [jsonStringBody] at this ⊢
        omega
    | zero =>
      have hw := decodeRune_width (b :: bs)
      have h1 := ih 0 true
      have h2 := ih ((decodeRune (b :: bs)).2 - 1) false
      have h3 := ih ((decodeRune (b :: bs)).2 - 1) true
      have h4 := jsonEscape_length b
      simp only [Bool.false_eq_true, if_false, if_true] at h1 h2 h3
      have : (b :: bs).length ≤ (jsonStringBody 0 keep (b :: bs)).length := by
        unfold jsonStringBody
        split_ifs <;> simp only [List.length_cons, List.length_append, List.length_nil] <;> omega
      cases keep <;> simpa using this

/-- A string whose JSON form is the string itself between two quotes holds
no `"`. -/
theorem jsonStringBody_plain (s : Bytes) : ∀ (skip : Nat),
    (∀ k, k < skip → ∀ x, s[k]? = some x → 128 ≤ x) →
    (jsonStringBody skip true s).length = s.length → ∀ b ∈ s, b ≠ chQuote := by
  induction s with
  | nil => intro skip _ _ b hb; simp at hb
  | cons b bs ih =>
    intro skip hskip hlen
    cases skip with
    | succ skip =>
      have hb : 128 ≤ b := hskip 0 (by omega) b (by simp)
      simp only [jsonStringBody, if_true, List.length_cons, Nat.add_right_cancel_iff] at hlen
      have := ih skip (fun k hk x hx => hskip (k + 1) (by omega) x (by simpa using hx)) hlen
      intro x hx
      rcases List.mem_cons.mp hx with rfl | hx
      · simp [chQuote]; omega
      · exact this x hx
    | zero =>
      have hw := decodeRune_width (b :: bs)
      have h1 := jsonStringBody_length bs 0 true
      have h2 := jsonStringBody_length bs ((decodeRune (b :: bs)).2 - 1) false
      have h4 := jsonEscape_length b
      simp only [Bool.false_eq_true, if_false, if_true] at h1 h2
      unfold jsonStringBody at hlen
      split_ifs at hlen with c1 c2 c3 c4
      · simp only [List.length_cons, Nat.add_right_cancel_iff] at hlen
        have := ih 0 (fun k hk => by omega) hlen
        intro x hx
        rcases List.mem_cons.mp hx with rfl | hx
        · intro hq; subst hq; simp [htmlSafe] at c2
        · exact this x hx
      · simp only [List.length_cons, List.length_append] at hlen; omega
      · simp only [List.length_cons, List.length_append, List.length_nil] at hlen; omega
      · simp only [List.length_cons, List.length_append, List.length_nil] at hlen; omega
      · simp only [List.length_cons, Nat.add_right_cancel_iff] at hlen
        have hb : 128 ≤ b := by omega
        have := ih _ (decodeRune_high b bs hb).2 hlen
        intro x hx
        rcases List.mem_cons.mp hx with rfl | hx
        · simp [chQuote]; omega
        · exact this x hx

theorem jsonString_plain (m : Bytes) (h : jsonString m = chQuote :: m ++ [chQuote]) :
    ∀ b ∈ m, b ≠ chQuote := by
  apply jsonStringBody_plain m 0 (fun k hk => by omega)
  have := congrArg List.length h
  simp [jsonString] at this
  exact this

/-! ## Lemmas: `Encode` -/

theorem jsonElements_ok (elems : List Bytes) :
    jsonElements (elems.map .ok) = .ok (List.intercalate [chComma] elems) := by
  induction elems with
  | nil => rfl
  | cons x rest ih =>
    cases rest with
    | nil => simp [jsonElements, List.intercalate]
    | cons y zs =>
      rw [List.map_cons, jsonElements, ih]
      simp [List.intercalate]

theorem jsonMarshalArray_ok (elems : List Bytes) :
    jsonMarshalArray (elems.map .ok) = .ok (jsonArray elems) := by
  simp [jsonMarshalArray, jsonElements_ok, jsonArray]

/-- The escapes of `jsonString`, each kind once: the quote and the backslash,
the five short escapes, a control byte, the three bytes of HTML, DEL (copied),
a rune of two bytes (copied), U+2028 and U+2029, and a byte that is not
UTF-8. -/
theorem jsonString_escapes :
    jsonString [34, 92, 8, 12, 10, 13, 9, 31, 60, 62, 38, 127, 195, 169,
        226, 128, 168, 226, 128, 169, 255, 97] =
      [34, 92, 34, 92, 92, 92, 98, 92, 102, 92, 110, 92, 114, 92, 116,
        92, 117, 48, 48, 49, 102, 92, 117, 48, 48, 51, 99, 92, 117, 48, 48, 51, 101,
        92, 117, 48, 48, 50, 54, 127, 195, 169,
        92, 117, 50, 48, 50, 56, 92, 117, 50, 48, 50, 57,
        92, 117, 102, 102, 102, 100, 97, 34] := by
  decide

/-- The packet of `EncodeWith` for an Emit or AckRequest message with
arguments that encode, for every encoder of the method. -/
theorem EncodeWith_event (marshalString : Bytes → Bytes) (msg : Message) (encs : List Bytes)
    (ht : msg.Type_ = MessageTypeEmit ∨ msg.Type_ = MessageTypeAckRequest) :
    EncodeWith marshalString msg (some (encs.map .ok)) =
      .ok (ascii "42" ++ (if msg.Type_ = MessageTypeAckRequest then itoa msg.AckID else []) ++
        msg.Namespace ++ (if msg.Namespace = [] then [] else [chComma]) ++
        jsonArray (marshalString msg.Method :: encs)) := by
  have h42 : ascii "42" = [52, 50] := by decide
  have hj := jsonMarshalArray_ok (marshalString msg.Method :: encs)
  rw [List.map_cons] at hj
  rcases ht with ht | ht
  · simp only [EncodeWith, typeToText, ht, hj]
    simp [MessageTypeOpen_eq, MessageTypeClose_eq, MessageTypePing_eq, MessageTypePong_eq,
      MessageTypeEmpty_eq, MessageTypeEmit_eq, MessageTypeAckRequest_eq,
      MessageTypeAckResponse_eq, MessageTypeNamespace_eq, CommonMessage_eq, h42]
    split_ifs <;> simp_all
  · simp only [EncodeWith, typeToText, ht, hj]
    simp [MessageTypeOpen_eq, MessageTypeClose_eq, MessageTypePing_eq, MessageTypePong_eq,
      MessageTypeEmpty_eq, MessageTypeEmit_eq, MessageTypeAckRequest_eq,
      MessageTypeAckResponse_eq, MessageTypeNamespace_eq, CommonMessage_eq, h42]
    split_ifs <;> simp_all

/-- The packet of `Encode` for an Emit or AckRequest message with arguments that encode. -/
theorem Encode_event (msg : Message) (encs : List Bytes)
    (ht : msg.Type_ = MessageTypeEmit ∨ msg.Type_ = MessageTypeAckRequest) :
    Encode msg (some (encs.map .ok)) =
      .ok (ascii "42" ++ (if msg.Type_ = MessageTypeAckRequest then itoa msg.AckID else []) ++
        msg.Namespace ++ (if msg.Namespace = [] then [] else [chComma]) ++
        jsonArray (jsonString msg.Method :: encs)) :=
  EncodeWith_event jsonString msg encs ht

/-- The packet of `EncodeWith` for an AckResponse message: the arguments are
not read. -/
theorem EncodeWith_ackResponse (marshalString : Bytes → Bytes) (msg : Message)
    (args : Option (List Arg)) (ht : msg.Type_ = MessageTypeAckResponse) :
    EncodeWith marshalString msg args = .ok (ascii "43" ++ itoa msg.AckID ++ msg.Data) := by
  have h43 : ascii "43" = [52, 51] := by decide
  simp only [EncodeWith, typeToText, ht]
  simp [MessageTypeOpen_eq, MessageTypeClose_eq, MessageTypePing_eq, MessageTypePong_eq,
    MessageTypeEmpty_eq, MessageTypeEmit_eq, MessageTypeAckRequest_eq,
    MessageTypeAckResponse_eq, MessageTypeNamespace_eq, AckMessage_eq, h43]

/-! ## Lemmas: the round trip -/

/-- What `Decode` makes of `42` + `ns` + `,["m"]`. -/
theorem Decode_bareFrame_comma (ns m : Bytes)
    (hns : ∀ b ∈ ns, b ≠ chComma ∧ b ≠ chQuote) (hm : ∀ b ∈ m, b ≠ chQuote) :
    Decode (52 :: 50 :: (ns ++ chComma :: chLBracket :: chQuote :: (m ++ [chQuote, chRBracket]))) =
      some (some { Namespace := ns, Method := m, Type_ := MessageTypeEmit, AckID := 0,
                   Data := [chLBracket, chRBracket],
                   Source := 52 :: 50 ::
                     (ns ++ chComma :: chLBracket :: chQuote :: (m ++ [chQuote, chRBracket])) },
        none) := by
  rw [Decode_common _ (by simp), extractNamespace_comma ns _ hns]
  simp [decodePacket_bare m hm]

/-- What `Decode` makes of `42` + `["m"]`. -/
theorem Decode_bareFrame (m : Bytes) (hm : ∀ b ∈ m, b ≠ chQuote) :
    Decode (52 :: 50 :: chLBracket :: chQuote :: (m ++ [chQuote, chRBracket])) =
      some (some { Namespace := [], Method := m, Type_ := MessageTypeEmit, AckID := 0,
                   Data := [chLBracket, chRBracket],
                   Source := 52 :: 50 :: chLBracket :: chQuote :: (m ++ [chQuote, chRBracket]) },
        none) := by
  have := extractNamespace_quote [chLBracket] (m ++ [chQuote, chRBracket]) (by simp)
  rw [Decode_common _ (by simp)]
  simp only [List.singleton_append] at this
  rw [this]
  simp [decodePacket_bare m hm]

/-- The packet of `Encode` for an Emit message without arguments. -/
theorem Encode_emit_absent (msg : Message) (ht : msg.Type_ = MessageTypeEmit) :
    Encode msg none =
      .ok (52 :: 50 :: (msg.Namespace ++
        chComma :: chLBracket :: chQuote :: (msg.Method ++ [chQuote, chRBracket]))) := by
  simp only [Encode, EncodeWith, typeToText, ht]
  simp [MessageTypeOpen_eq, MessageTypeClose_eq, MessageTypePing_eq, MessageTypePong_eq,
    MessageTypeEmpty_eq, MessageTypeEmit_eq, MessageTypeAckRequest_eq,
    MessageTypeAckResponse_eq, MessageTypeNamespace_eq, CommonMessage_eq]

/-- Encoding an Emit message and decoding the packet gives back the
namespace, the method and the array of the arguments. -/
theorem Decode_Encode_emit (msg : Message) (args : Option (List Bytes))
    (ht : msg.Type_ = MessageTypeEmit)
    (hns : ∀ b ∈ msg.Namespace, b ≠ chComma ∧ b ≠ chQuote)
    (hm : jsonString msg.Method = chQuote :: msg.Method ++ [chQuote]) :
    ∃ packet, Encode msg (args.map (List.map .ok)) = .ok packet ∧
      Decode packet =
        some (some { Namespace := msg.Namespace, Method := msg.Method,
                     Type_ := MessageTypeEmit, AckID := 0, Data := jsonArray (args.getD []),
                     Source := packet }, none) := by
  have hq := jsonString_plain msg.Method hm
  have h42 : ascii "42" = [52, 50] := by decide
  have hne : msg.Type_ ≠ MessageTypeAckRequest := by rw [ht]; decide
  cases args with
  | none =>
    refine ⟨_, Encode_emit_absent msg ht, ?_⟩
    rw [Decode_bareFrame_comma _ _ hns hq]
    rfl
  | some encs =>
    refine ⟨_, Encode_event msg encs (Or.inl ht), ?_⟩
    simp only [hne, if_false, List.append_nil]
    cases encs with
    | nil =>
      have e : ascii "42" ++ msg.Namespace ++ (if msg.Namespace = [] then [] else [chComma]) ++
          jsonArray [jsonString msg.Method] =
          if msg.Namespace = [] then
            52 :: 50 :: chLBracket :: chQuote :: (msg.Method ++ [chQuote, chRBracket])
          else 52 :: 50 :: (msg.Namespace ++
            chComma :: chLBracket :: chQuote :: (msg.Method ++ [chQuote, chRBracket])) := by
        split_ifs with h <;> simp [h, h42, jsonArray, hm, List.intercalate]
      rw [e]
      split_ifs with h
      · rw [Decode_bareFrame _ hq, h]; rfl
      · rw [Decode_bareFrame_comma _ _ hns hq]; rfl
    | cons x xs =>
      have e : ascii "42" ++ msg.Namespace ++ (if msg.Namespace = [] then [] else [chComma]) ++
          jsonArray (jsonString msg.Method :: x :: xs) =
          eventFrame msg.Namespace msg.Method
            (List.intercalate [chComma] (x :: xs) ++ [chRBracket]) := by
        simp [eventFrame, jsonArray, hm, List.intercalate]
      rw [e, Decode_eventFrame _ _ _ hns hq (by simp)]
      rfl

/-! ## Lemmas: the ack waiter -/

theorem Waiter.Next_value (w : Waiter) (h0 : 0 ≤ w.counter) (h1 : w.counter ≤ MaxInt32) :
    w.Next.1 = (if w.counter < MaxInt32 then w.counter + 1 else 0) ∧
      w.Next.2.counter = w.Next.1 ∧ w.Next.2.message = w.message := by
  refine ⟨?_, rfl, rfl⟩
  simp only [Waiter.Next, wrapInt, MaxInt32] at *
  norm_num
  split_ifs <;> omega

theorem Waiter.Next_mod (w : Waiter) (j : Nat) (h : w.counter = (j : Int) % 2 ^ 31) :
    w.Next.1 = ((j + 1 : Nat) : Int) % 2 ^ 31 := by
  have h0 : 0 ≤ w.counter := by rw [h]; exact Int.emod_nonneg _ (by norm_num)
  have h1 : w.counter ≤ MaxInt32 := by
    rw [h]
    have := Int.emod_lt_of_pos (j : Int) (by norm_num : (0 : Int) < 2 ^ 31)
    simp only [MaxInt32]
    norm_num at this ⊢
    omega
  rw [(Waiter.Next_value w h0 h1).1, h]
  simp only [MaxInt32]
  norm_num
  split_ifs <;> omega

theorem Waiter.nextValues_from (ops : List WaiterOp) : ∀ (w : Waiter) (j : Nat),
    w.counter = (j : Int) % 2 ^ 31 →
    Waiter.nextValues w ops =
      (List.range (ops.count .Next)).map (fun i => ((j + i + 1 : Nat) : Int) % 2 ^ 31) := by
  induction ops with
  | nil => intro w j _; rfl
  | cons op ops ih =>
    intro w j h
    cases op with
    | Next =>
      have hv := Waiter.Next_mod w j h
      have hc : w.Next.2.counter = ((j + 1 : Nat) : Int) % 2 ^ 31 := hv
      rw [Waiter.nextValues, ih _ (j + 1) hc, hv, List.count_cons_self, List.range_succ_eq_map]
      simp only [List.map_cons, List.map_map]
      congr 1
      apply List.map_congr_left
      intro i _
      simp only [Function.comp]
      congr 2
      omega
    | Set id msg => simpa [Waiter.nextValues] using ih (w.Set id msg) j h
    | Delete id => simpa [Waiter.nextValues] using ih (w.Delete id) j h
    | Load id => simpa [Waiter.nextValues] using ih w j h
    | Size => simpa [Waiter.nextValues] using ih w j h

theorem lastWrite_append (ops : List WaiterOp) (op : WaiterOp) (id : Int) :
    lastWrite (ops ++ [op]) id = if op.writes id then some op else lastWrite ops id := by
  unfold lastWrite
  rw [List.filter_append]
  by_cases h : op.writes id
  · simp [h, List.filter_cons]
  · simp [h, List.filter_cons]

theorem specStore_append (ops : List WaiterOp) (op : WaiterOp) (id : Int) :
    specStore (ops ++ [op]) id =
      match op with
      | .Set k s => if k = id then some s else specStore ops id
      | .Delete k => if k = id then none else specStore ops id
      | _ => specStore ops id := by
  unfold specStore
  rw [lastWrite_append]
  cases op with
  | Set k s => by_cases h : k = id <;> simp [WaiterOp.writes, h]
  | Delete k => by_cases h : k = id <;> simp [WaiterOp.writes, h]
  | Next => simp [WaiterOp.writes]
  | Load k => simp [WaiterOp.writes]
  | Size => simp [WaiterOp.writes]

theorem lookup_filter_ne (es : Entries) (k id : Int) :
    (es.filter (fun p => p.1 ≠ k)).lookup id = if id = k then none else es.lookup id := by
  induction es with
  | nil => simp
  | cons p es ih =>
    obtain ⟨a, b⟩ := p
    rw [List.filter_cons]
    by_cases h : a = k
    · have hd : decide ((a, b).1 ≠ k) = false := by simp [h]
      rw [hd, if_neg (by simp), ih]
      by_cases h2 : id = k
      · simp [h2]
      · have : (id == a) = false := by simpa [h] using h2
        simp [h2, List.lookup_cons, this]
    · have hd : decide ((a, b).1 ≠ k) = true := by simp [h]
      rw [hd, if_pos rfl, List.lookup_cons, List.lookup_cons, ih]
      by_cases h2 : id = a
      · subst h2; simp [h]
      · have : (id == a) = false := by simpa using h2
        simp [this]

theorem lookup_mapAssign (es : Entries) (k : Int) (v : Chan) (id : Int) :
    (mapAssign es k v).lookup id = if id = k then some v else es.lookup id := by
  unfold mapAssign
  rw [List.lookup_cons, lookup_filter_ne]
  by_cases h : id = k
  · subst h; simp
  · have : (id == k) = false := by simpa using h
    simp [this, h]

theorem mem_keys_iff (es : Entries) (id : Int) :
    id ∈ es.map Prod.fst ↔ (es.lookup id).isSome = true := by
  induction es with
  | nil => simp
  | cons p es ih =>
    obtain ⟨a, b⟩ := p
    by_cases h : id = a
    · subst h; simp [List.lookup_cons]
    · have : (id == a) = false := by simpa using h
      simp [List.lookup_cons, this, h, ih]

theorem keys_filter_nodup (es : Entries) (k : Int) (h : (es.map Prod.fst).Nodup) :
    ((es.filter (fun p => p.1 ≠ k)).map Prod.fst).Nodup :=
  h.sublist ((List.filter_sublist es).map Prod.fst)

theorem keys_mapAssign_nodup (es : Entries) (k : Int) (v : Chan)
    (h : (es.map Prod.fst).Nodup) : ((mapAssign es k v).map Prod.fst).Nodup := by
  unfold mapAssign
  rw [List.map_cons, List.nodup_cons]
  refine ⟨?_, keys_filter_nodup es k h⟩
  rw [mem_keys_iff, lookup_filter_ne]
  simp

theorem specStore_mem (ops : List WaiterOp) (id : Int) (h : (specStore ops id).isSome = true) :
    id ∈ ops.filterMap (fun op =>
      match op with
      | .Set k _ => some k
      | _ => none) := by
  unfold specStore at h
  split at h
  · next k s hl =>
    have hm := List.mem_of_getLast?_eq_some hl
    rw [List.mem_filter] at hm
    obtain ⟨hm1, hm2⟩ := hm
    have hk : k = id := by simpa [WaiterOp.writes] using hm2
    subst hk
    exact List.mem_filterMap.mpr ⟨_, hm1, rfl⟩
  · simp at h

theorem mem_specIds (ops : List WaiterOp) (id : Int) :
    id ∈ specIds ops ↔ (specStore ops id).isSome = true := by
  unfold specIds
  rw [List.mem_filter, List.mem_dedup]
  exact ⟨fun h => h.2, fun h => ⟨specStore_mem ops id h, h⟩⟩

theorem specIds_nodup (ops : List WaiterOp) : (specIds ops).Nodup :=
  (List.nodup_dedup _).filter _

/-- The map of a waiter after a list of calls on a fresh one holds each key
once and agrees with the map of the specification. -/
theorem Waiter.run_inv (ops : List WaiterOp) :
    (((Waiter.run {} ops).message.getD []).map Prod.fst).Nodup ∧
      ∀ id, ((Waiter.run {} ops).message.getD []).lookup id = specStore ops id := by
  induction ops using List.reverseRecOn with
  | nil => exact ⟨by simp [Waiter.run], fun id => by simp [Waiter.run, specStore, lastWrite]⟩
  | append_singleton ops op ih =>
    obtain ⟨ih1, ih2⟩ := ih
    have hrun : Waiter.run {} (ops ++ [op]) = (Waiter.run {} ops).apply op := by
      simp [Waiter.run, List.foldl_append]
    rw [hrun]
    cases op with
    | Next =>
      refine ⟨ih1, fun id => ?_⟩
      rw [specStore_append]
      exact ih2 id
    | Load k =>
      refine ⟨ih1, fun id => ?_⟩
      rw [specStore_append]
      exact ih2 id
    | Size =>
      refine ⟨ih1, fun id => ?_⟩
      rw [specStore_append]
      exact ih2 id
    | Set k s =>
      have hm : ((Waiter.run {} ops).apply (.Set k s)).message.getD [] =
          mapAssign ((Waiter.run {} ops).message.getD []) k s := by
        simp only [Waiter.apply, Waiter.Set]
        cases (Waiter.run {} ops).message <;> rfl
      rw [hm]
      refine ⟨keys_mapAssign_nodup _ k s ih1, fun id => ?_⟩
      rw [specStore_append, lookup_mapAssign, ih2]
      by_cases h : id = k
      · subst h; simp
      · have h' : ¬ k = id := fun e => h e.symm
        simp [h, h']
    | Delete k =>
      have hm : ((Waiter.run {} ops).apply (.Delete k)).message.getD [] =
          ((Waiter.run {} ops).message.getD []).filter (fun p => p.1 ≠ k) := by
        simp only [Waiter.apply, Waiter.Delete, mapDelete]
        cases (Waiter.run {} ops).message <;> rfl
      rw [hm]
      refine ⟨keys_filter_nodup _ k ih1, fun id => ?_⟩
      rw [specStore_append, lookup_filter_ne, ih2]
      by_cases h : id = k
      · subst h; simp
      · have h' : ¬ k = id := fun e => h e.symm
        simp [h, h']

theorem Waiter.Load_eq (w : Waiter) (id : Int) :
    w.Load id =
      match (w.message.getD []).lookup id with
      | some s => (s, true)
      | none => (0, false) := by
  unfold Waiter.Load mapIndex
  cases w.message <;> rfl

theorem Waiter.Size_eq (w : Waiter) : w.Size = (w.message.getD []).length := by
  unfold Waiter.Size mapLen
  cases w.message <;> rfl

/-- What `Load` and `Size` give after a list of calls on a fresh waiter. -/
theorem Waiter.run_refines (ops : List WaiterOp) :
    (∀ id, (Waiter.run {} ops).Load id =
        match specStore ops id with
        | some s => (s, true)
        | none => (0, false)) ∧
      (Waiter.run {} ops).Size = (specIds ops).length := by
  obtain ⟨h1, h2⟩ := Waiter.run_inv ops
  refine ⟨fun id => by rw [Waiter.Load_eq, h2], ?_⟩
  rw [Waiter.Size_eq, ← List.length_map _ Prod.fst]
  apply List.Perm.length_eq
  rw [List.perm_ext_iff_of_nodup h1 (specIds_nodup ops)]
  intro id
  rw [mem_keys_iff, mem_specIds, h2]

theorem Waiter.run_append (ops : List WaiterOp) (op : WaiterOp) :
    Waiter.run {} (ops ++ [op]) = (Waiter.run {} ops).apply op := by
  simp [Waiter.run, List.foldl_append]

/-- A `Set` on an id that is present leaves `Size` as it is. -/
theorem Waiter.Size_Set_present (ops : List WaiterOp) (id : Int) (s : Chan)
    (h : (specStore ops id).isSome = true) :
    ((Waiter.run {} ops).Set id s).Size = (Waiter.run {} ops).Size := by
  have e : (Waiter.run {} ops).Set id s = Waiter.run {} (ops ++ [.Set id s]) := by
    rw [Waiter.run_append]; rfl
  rw [e, (Waiter.run_refines _).2, (Waiter.run_refines _).2]
  apply List.Perm.length_eq
  rw [List.perm_ext_iff_of_nodup (specIds_nodup _) (specIds_nodup _)]
  intro x
  rw [mem_specIds, mem_specIds, specStore_append]
  by_cases hx : id = x
  · subst hx; simp [h]
  · simp [hx]

/-- A `Delete` on an id that is absent leaves the waiter as it is. -/
theorem Waiter.Delete_absent (ops : List WaiterOp) (id : Int) (h : specStore ops id = none) :
    (Waiter.run {} ops).Delete id = Waiter.run {} ops := by
  have h2 := (Waiter.run_inv ops).2 id
  rw [h] at h2
  generalize Waiter.run {} ops = w at h2 ⊢
  obtain ⟨c, m⟩ := w
  cases m with
  | none => rfl
  | some es =>
    simp only [Waiter.Delete, mapDelete, Option.map_some', Waiter.mk.injEq, true_and,
      Option.some.injEq]
    rw [List.filter_eq_self]
    intro p hp
    simp only [Option.getD_some] at h2
    by_contra hc
    simp only [ne_eq, decide_not, Bool.not_eq_true', decide_eq_false_iff_not, not_not] at hc
    have hm : id ∈ es.map Prod.fst := hc ▸ List.mem_map_of_mem Prod.fst hp
    rw [mem_keys_iff, h2] at hm
    simp at hm

/-! ## Lemmas: `Decode` never panics -/

theorem slice_isSome (s : Bytes) (lo hi : Nat) (h1 : lo ≤ hi) (h2 : hi ≤ s.length) :
    ∃ r, slice s lo hi = some r := by
  simp only [slice, h1, h2, and_self, if_true]
  exact ⟨_, rfl⟩

theorem sliceFrom_isSome (s : Bytes) (lo : Nat) (h : lo ≤ s.length) :
    ∃ r, sliceFrom s lo = some r :=
  slice_isSome s lo s.length h (Nat.le_refl _)

/-- The offsets that `range` yields lie inside the string. -/
theorem rangeFrom_index_lt (s : Bytes) : ∀ (i skip : Nat),
    ∀ p ∈ rangeFrom i skip s, p.1 < i + s.length := by
  induction s with
  | nil => intro i skip p hp; cases skip <;> simp [rangeFrom] at hp
  | cons b bs ih =>
    intro i skip p hp
    cases skip with
    | succ skip =>
      rw [rangeFrom] at hp
      have := ih _ _ p hp
      simp only [List.length_cons]; omega
    | zero =>
      rw [rangeFrom] at hp
      rcases List.mem_cons.mp hp with rfl | hp
      · simp
      · have := ih _ _ p hp
        simp only [List.length_cons]; omega

theorem extractNamespaceLoop_pos (l : List (Nat × Nat)) (pos : Nat)
    (h : extractNamespaceLoop l = some pos) : pos = 0 ∨ ∃ p ∈ l, p.1 = pos := by
  induction l with
  | nil => left; simpa [extractNamespaceLoop] using h.symm
  | cons p tl ih =>
    obtain ⟨i, c⟩ := p
    simp only [extractNamespaceLoop] at h
    split_ifs at h with h1 h2
    · right; exact ⟨(i, c), by simp, by simpa using h⟩
    · rcases ih h with h3 | ⟨q, hq, hq2⟩
      · exact Or.inl h3
      · exact Or.inr ⟨q, by simp [hq], hq2⟩

/-- The slices of `extractNamespace` are in bounds. -/
theorem extractNamespace_total (data : Bytes) : ∃ r, extractNamespace data = some r := by
  unfold extractNamespace
  split_ifs with h0
  · exact ⟨_, rfl⟩
  · cases hl : extractNamespaceLoop (rangeString data) with
    | none => exact ⟨_, rfl⟩
    | some pos =>
      have hpos : pos < data.length := by
        rcases extractNamespaceLoop_pos _ _ hl with rfl | ⟨p, hp, rfl⟩
        · omega
        · simpa using rangeFrom_index_lt data 0 0 p hp
      obtain ⟨a, ha⟩ := slice_isSome data 0 pos (Nat.zero_le _) (by omega)
      simp only [ha, Option.some_bind]
      split_ifs with h1
      · obtain ⟨b, hb⟩ := sliceFrom_isSome data (pos + 1) (by omega)
        simp only [hb, Option.some_bind]
        exact ⟨_, rfl⟩
      · exact ⟨_, rfl⟩

theorem indexByte_lt (s : Bytes) (c pos : Nat) (h : indexByte s c = some pos) :
    pos < s.length := by
  induction s generalizing pos with
  | nil => simp [indexByte] at h
  | cons b bs ih =>
    simp only [indexByte] at h
    split_ifs at h
    · simp at h; subst h; simp
    · cases hi : indexByte bs c with
      | none => simp [hi] at h
      | some q =>
        simp [hi] at h
        subst h
        have := ih q hi
        simp only [List.length_cons]; omega

/-- The slices of `getAckFromPacket` are in bounds. -/
theorem getAckFromPacket_total (text : Bytes) : ∃ r, getAckFromPacket text = some r := by
  unfold getAckFromPacket
  split_ifs
  · exact ⟨_, rfl⟩
  · cases hi : indexByte text chLBracket with
    | none => exact ⟨_, rfl⟩
    | some pos =>
      have hpos := indexByte_lt _ _ _ hi
      obtain ⟨a, ha⟩ := slice_isSome text 0 pos (Nat.zero_le _) (by omega)
      obtain ⟨b, hb⟩ := sliceFrom_isSome text pos (by omega)
      simp only [ha, hb, Option.some_bind]
      cases Atoi a with
      | error e => exact ⟨_, rfl⟩
      | ok v => exact ⟨_, rfl⟩

/-- The variable `end` of `decodePacket` stays inside the string. -/
theorem decodePacketLoop_end (l : List (Nat × Nat)) (n : Nat) (hl : ∀ p ∈ l, p.1 < n) :
    ∀ st st', decodePacketLoop l st = some st' → st.end_ ≤ n → st'.end_ ≤ n := by
  induction l with
  | nil => intro st st' h hst; simp [decodePacketLoop] at h; subst h; exact hst
  | cons p tl ih =>
    intro st st' h hst
    obtain ⟨i, c⟩ := p
    have hi : i < n := hl (i, c) (by simp)
    have htl : ∀ p ∈ tl, p.1 < n := fun p hp => hl p (by simp [hp])
    simp only [decodePacketLoop] at h
    have hq : ∀ st1, (if c = chQuote then quoteStep i st else some st) = some st1 →
        st1.end_ ≤ n := by
      intro st1 h1
      split_ifs at h1
      · unfold quoteStep at h1
        split at h1
        · cases h1; exact hst
        · cases h1; simp; omega
        · cases h1
      · cases h1; exact hst
    cases hs : (if c = chQuote then quoteStep i st else some st) with
    | none => rw [hs] at h; cases h
    | some st1 =>
      rw [hs] at h
      have h1 := hq st1 hs
      simp only at h
      split_ifs at h
      · exact ih htl st1 st' h h1
      · cases h; exact h1
      · exact ih htl st1 st' h h1

/-- The slices of `decodePacket` are in bounds. -/
theorem decodePacket_total (input : Bytes) : ∃ r, decodePacket input = some r := by
  unfold decodePacket
  cases hl : decodePacketLoop (rangeString input) {} with
  | none => exact ⟨_, rfl⟩
  | some st =>
    simp only
    split_ifs with hc
    · exact ⟨_, rfl⟩
    · have hend : st.end_ ≤ input.length :=
        decodePacketLoop_end _ input.length
          (fun p hp => by simpa using rangeFrom_index_lt input 0 0 p hp) _ _ hl (Nat.zero_le _)
      obtain ⟨a, ha⟩ := sliceFrom_isSome input st.rest (by omega)
      obtain ⟨b, hb⟩ := slice_isSome input st.start st.end_ (by omega) hend
      simp only [ha, hb, Option.some_bind]
      exact ⟨_, rfl⟩

theorem getMessageType_total (b : Nat) (rest : Bytes) :
    ∃ r, getMessageType (b :: rest) = some r := by
  have h1 : slice (b :: rest) 0 1 = some [b] := by simp [slice]
  simp only [getMessageType, h1, Option.some_bind]
  split_ifs
  · exact ⟨_, rfl⟩
  · exact ⟨_, rfl⟩
  · exact ⟨_, rfl⟩
  · exact ⟨_, rfl⟩
  · unfold getRegularMessageType
    split_ifs with hl
    · exact ⟨_, rfl⟩
    · cases rest with
      | nil => simp at hl
      | cons c tl =>
        have h2 : slice (b :: c :: tl) 0 2 = some [b, c] := by simp [slice]
        simp only [h2, Option.some_bind]
        split_ifs <;> exact ⟨_, rfl⟩
  · exact ⟨_, rfl⟩

/-- The function `Decode` returns on every input. -/
theorem Decode_total (source : Bytes) : ∃ r, Decode source = some r := by
  cases source with
  | nil => exact ⟨_, rfl⟩
  | cons b rest =>
    have h1 : slice (b :: rest) 0 1 = some [b] := by simp [slice]
    simp only [Decode, h1, Option.some_bind, List.length_cons, Nat.add_one_ne_zero, if_false]
    by_cases hopen : [b] = OpenMessage
    · rw [if_pos hopen]
      by_cases hlen : rest.length + 1 > 1
      · obtain ⟨d, hd⟩ := sliceFrom_isSome (b :: rest) 1 (by simp)
        rw [if_pos hlen, hd]
        exact ⟨_, rfl⟩
      · rw [if_neg hlen]
        exact ⟨_, rfl⟩
    · rw [if_neg hopen]
      obtain ⟨r, hr⟩ := getMessageType_total b rest
      rw [hr]
      simp only [Option.some_bind]
      cases r with
      | error e => exact ⟨_, rfl⟩
      | ok t =>
        simp only
        by_cases h2 : rest.length + 1 > 2
        · obtain ⟨d, hd⟩ := sliceFrom_isSome (b :: rest) 2 (by simp; omega)
          obtain ⟨nr, hnr⟩ := extractNamespace_total d
          rw [if_pos h2, hd]
          simp only [Option.some_bind, hnr]
          obtain ⟨x, hx⟩ := getAckFromPacket_total nr.2
          obtain ⟨y, hy⟩ := decodePacket_total nr.2
          split_ifs
          all_goals first
            | exact ⟨_, rfl⟩
            | (rw [hx]; rcases x with e | ⟨ack, r⟩ <;> exact ⟨_, rfl⟩)
            | (rw [hy]; exact ⟨_, rfl⟩)
        · rw [if_neg h2]
          simp only [Option.some_bind]
          obtain ⟨x, hx⟩ := getAckFromPacket_total (b :: rest)
          obtain ⟨y, hy⟩ := decodePacket_total (b :: rest)
          split_ifs
          all_goals first
            | exact ⟨_, rfl⟩
            | (rw [hx]; rcases x with e | ⟨ack, r⟩ <;> exact ⟨_, rfl⟩)
            | (rw [hy]; exact ⟨_, rfl⟩)

/-- The step of `Decode` that takes the namespace off the text. -/
theorem Decode_namespace_step (msg0 : Message) (data : Bytes) :
    ∃ a : Message × Bytes,
      (if data.length > 2 then
        (sliceFrom data 2).bind fun d =>
          (extractNamespace d).bind fun nr =>
            some ({ msg0 with Namespace := nr.1 }, nr.2)
      else some (msg0, data)) = some a ∧
      a.1.AckID = msg0.AckID ∧ a.1.Type_ = msg0.Type_ := by
  split_ifs with h2
  · obtain ⟨d, hd⟩ := sliceFrom_isSome data 2 (by omega)
    obtain ⟨nr, hnr⟩ := extractNamespace_total d
    simp only [hd, hnr, Option.some_bind]
    exact ⟨_, rfl, rfl, rfl⟩
  · exact ⟨_, rfl, rfl, rfl⟩

/-- The last step of `Decode`, from the `switch` on the type on. -/
theorem Decode_payload_step (a : Message × Bytes) (majorType : Bytes) (hA : a.1.AckID = 0) :
    ∃ r : Option Message × Option Error,
      (if a.1.Type_ = MessageTypeClose ∨ a.1.Type_ = MessageTypePing ∨
          a.1.Type_ = MessageTypePong ∨ a.1.Type_ = MessageTypeEmpty ∨
          a.1.Type_ = MessageTypeError then
        some (some a.1, none)
      else if majorType ≠ RegularMessage then
        some (none, some (.cantDecode majorType))
      else if a.1.Type_ = MessageTypeAckResponse then
        (getAckFromPacket a.2).bind fun r =>
          match r with
          | .error err => some (none, some err)
          | .ok (ack, rest) =>
            some (some { a.1 with AckID := ack, Data := rest }, none)
      else
        (decodePacket a.2).bind fun r =>
          some (some { a.1 with Type_ := MessageTypeEmit, Method := r.1, Data := r.2.1 },
            r.2.2)) = some r ∧
      (r.1 ≠ none ∨ r.2 ≠ none) ∧
      ∀ msg, r.1 = some msg →
        (msg.Type_ = MessageTypeOpen ∨ msg.Type_ = MessageTypeClose ∨
          msg.Type_ = MessageTypePing ∨ msg.Type_ = MessageTypePong ∨
          msg.Type_ = MessageTypeEmpty ∨ msg.Type_ = MessageTypeError ∨
          msg.Type_ = MessageTypeAckResponse ∨ msg.Type_ = MessageTypeEmit) ∧
        (msg.Type_ ≠ MessageTypeAckResponse → msg.AckID = 0) := by
  obtain ⟨x, hx⟩ := getAckFromPacket_total a.2
  obtain ⟨y, hy⟩ := decodePacket_total a.2
  split_ifs with c1 c2 c3
  · refine ⟨_, rfl, by simp, fun msg hm => ?_⟩
    cases hm
    refine ⟨?_, fun _ => hA⟩
    rcases c1 with c | c | c | c | c <;> simp [c]
  · exact ⟨_, rfl, by simp, fun msg hm => by cases hm⟩
  · rw [hx]
    rcases x with e | ⟨ack, r⟩
    · exact ⟨_, rfl, by simp, fun msg hm => by cases hm⟩
    · refine ⟨_, rfl, by simp, fun msg hm => ?_⟩
      cases hm
      simp [c3]
  · rw [hy]
    refine ⟨_, rfl, by simp, fun msg hm => ?_⟩
    cases hm
    simp [hA]

/-- The kinds that `Decode` gives to a message, and the ack id 0 of every
kind but AckResponse. -/
theorem Decode_kind (source : Bytes) :
    ∃ r, Decode source = some r ∧ (r.1 ≠ none ∨ r.2 ≠ none) ∧ ∀ msg, r.1 = some msg →
      (msg.Type_ = MessageTypeOpen ∨ msg.Type_ = MessageTypeClose ∨
        msg.Type_ = MessageTypePing ∨ msg.Type_ = MessageTypePong ∨
        msg.Type_ = MessageTypeEmpty ∨ msg.Type_ = MessageTypeError ∨
        msg.Type_ = MessageTypeAckResponse ∨ msg.Type_ = MessageTypeEmit) ∧
      (msg.Type_ ≠ MessageTypeAckResponse → msg.AckID = 0) := by
  cases source with
  | nil => exact ⟨_, rfl, by simp, fun msg hm => by cases hm⟩
  | cons b rest =>
    have h1 : slice (b :: rest) 0 1 = some [b] := by simp [slice]
    have h0 : ¬ (b :: rest).length = 0 := by simp
    simp only [Decode, h1, Option.some_bind, h0, if_false]
    by_cases hopen : [b] = OpenMessage
    · rw [if_pos hopen]
      by_cases hlen : (b :: rest).length > 1
      · obtain ⟨d, hd⟩ := sliceFrom_isSome (b :: rest) 1 (by simp)
        rw [if_pos hlen, hd]
        exact ⟨_, rfl, by simp, fun msg hm => by cases hm; simp⟩
      · rw [if_neg hlen]
        exact ⟨_, rfl, by simp, fun msg hm => by cases hm; simp⟩
    · rw [if_neg hopen]
      obtain ⟨r, hr⟩ := getMessageType_total b rest
      rw [hr]
      simp only [Option.some_bind]
      cases r with
      | error e => exact ⟨_, rfl, by simp, fun msg hm => by cases hm⟩
      | ok t =>
        simp only
        obtain ⟨a, ha, hA, _⟩ := Decode_namespace_step
          (if t = MessageTypeEmpty then
            { Namespace := [], Method := OnConnection, Type_ := t, AckID := 0, Data := [],
              Source := b :: rest }
          else { Namespace := [], Method := [], Type_ := t, AckID := 0, Data := [],
                 Source := b :: rest }) (b :: rest)
        rw [ha]
        simp only [Option.some_bind]
        have hA0 : a.1.AckID = 0 := by rw [hA]; split_ifs <;> rfl
        exact Decode_payload_step a [b] hA0

/-- A frame that begins with `42` and decodes is of kind Emit. -/
theorem Decode_common_emit (body : Bytes) (msg : Message) (err : Option Error)
    (h : Decode (52 :: 50 :: body) = some (some msg, err)) : msg.Type_ = MessageTypeEmit := by
  cases body with
  | nil =>
    have hd : (Decode [52, 50]).map (fun r => r.1.map Message.Type_) =
        some (some MessageTypeEmit) := by decide
    rw [h] at hd
    simpa using hd
  | cons x xs =>
    rw [Decode_common _ (by simp)] at h
    cases hn : extractNamespace (x :: xs) with
    | none => simp [hn] at h
    | some nr =>
      cases hp : decodePacket nr.2 with
      | none => simp [hn, hp] at h
      | some r =>
        simp only [hn, hp, Option.some_bind, Option.some.injEq, Prod.mk.injEq] at h
        rw [← h.1]

/-! ## Lemmas: the handlers -/

theorem checkParamKind_none_iff (k : Kind) : checkParamKind k = none ↔ permittedKind k := by
  cases k <;> simp [checkParamKind, permittedKind]

theorem checkParamKind_some (k : Kind) (e : HandlerError) (h : checkParamKind k = some e) :
    e = .ErrorArgument k := by
  cases k <;> simp [checkParamKind] at h <;> exact h.symm

theorem checkHandlerInputParams_none_iff (ins : List GoType) :
    checkHandlerInputParams ins = none ↔ ∀ t ∈ ins, permittedKind t.kind := by
  induction ins with
  | nil => simp [checkHandlerInputParams]
  | cons t ts ih =>
    simp only [checkHandlerInputParams]
    cases hc : checkParamKind t.kind with
    | none =>
      have := (checkParamKind_none_iff t.kind).mp hc
      simp [ih, this]
    | some e =>
      have : ¬ permittedKind t.kind := fun hp => by
        rw [(checkParamKind_none_iff t.kind).mpr hp] at hc; cases hc
      simp [this]

/-- The error of `checkHandlerInputParams` carries the kind of the first
parameter that is not permitted. -/
theorem checkHandlerInputParams_first (pre post : List GoType) (t : GoType)
    (hpre : ∀ x ∈ pre, permittedKind x.kind) (ht : ¬ permittedKind t.kind) :
    checkHandlerInputParams (pre ++ t :: post) = some (.ErrorArgument t.kind) := by
  induction pre with
  | nil =>
    simp only [List.nil_append, checkHandlerInputParams]
    cases hc : checkParamKind t.kind with
    | none => exact absurd ((checkParamKind_none_iff _).mp hc) ht
    | some e => rw [checkParamKind_some _ _ hc]
  | cons x xs ih =>
    have hx := (checkParamKind_none_iff x.kind).mpr (hpre x (by simp))
    simp only [List.cons_append, checkHandlerInputParams, hx]
    exact ih (fun y hy => hpre y (by simp [hy]))

theorem isVariadicNonInterface_wf (fType : FuncType) (hwf : fType.wellFormed) :
    isVariadicNonInterface fType =
      some (decide (fType.isVariadic = true ∧
        ∀ last, fType.ins.getLast? = some last → last.elemKind ≠ .Interface)) := by
  unfold isVariadicNonInterface
  by_cases hv : fType.isVariadic = true
  · obtain ⟨last, hl, hk⟩ := hwf hv
    have hg : fType.ins[fType.ins.length - 1]? = some last := by
      rw [← List.getLast?_eq_getElem?]; exact hl
    simp [hv, hg, hk, hl]
  · simp [hv]

/-- When `NewHandler` accepts a callback, and the handler it returns. -/
theorem NewHandler_ok_iff (f : Value) (hwf : f.type_.wellFormed) (h : Handler) :
    NewHandler f = some (.ok h) ↔
      (f.kind = .Func ∧ f.type_.numOut ≤ 1 ∧ (∀ t ∈ f.type_.ins, permittedKind t.kind) ∧
        (f.type_.isVariadic = true →
          ∀ last, f.type_.ins.getLast? = some last → last.elemKind = .Interface)) ∧
      h = { Func := f, Out := decide (f.type_.numOut = 1), Variadic := f.type_.isVariadic,
            args := f.type_.ins } := by
  unfold NewHandler
  simp only [isVariadicNonInterface_wf f.type_ hwf]
  by_cases hk : f.kind = .Func
  · by_cases hn : f.type_.numOut > 1
    · simp [hk, hn]
    · cases hc : checkHandlerInputParams f.type_.ins with
      | some e =>
        have : ¬ ∀ t ∈ f.type_.ins, permittedKind t.kind := fun hp => by
          rw [(checkHandlerInputParams_none_iff _).mpr hp] at hc; cases hc
        simp [hk, hn, this]
      | none =>
        have hp := (checkHandlerInputParams_none_iff _).mp hc
        have hn' : f.type_.numOut ≤ 1 := by omega
        obtain ⟨last, hl, hsl⟩ | hv : (∃ last, f.type_.ins.getLast? = some last ∧
            f.type_.isVariadic = true) ∨ f.type_.isVariadic = false := by
          cases hv : f.type_.isVariadic with
          | false => exact Or.inr rfl
          | true =>
            obtain ⟨last, hl, _⟩ := hwf hv
            exact Or.inl ⟨last, hl, rfl⟩
        · by_cases he : last.elemKind = .Interface
          · simp [hk, hn, hn', hp, hl, hsl, he, eq_comm]
            exact fun _ => hp
          · simp [hk, hn, hn', hp, hl, hsl, he]
        · simp [hk, hn, hn', hp, hv, eq_comm]
          exact fun _ => hp
  · simp [hk]

theorem handlers_lookup_filter_ne (es : List (location × Handler)) (k id : location) :
    (es.filter (fun p => p.1 ≠ k)).lookup id = if id = k then none else es.lookup id := by
  induction es with
  | nil => simp
  | cons p es ih =>
    obtain ⟨a, b⟩ := p
    rw [List.filter_cons]
    by_cases h : a = k
    · have hd : decide ((a, b).1 ≠ k) = false := by simp [h]
      rw [hd, if_neg (by simp), ih]
      by_cases h2 : id = k
      · simp [h2]
      · have : (id == a) = false := by simpa [h] using h2
        simp [h2, List.lookup_cons, this]
    · have hd : decide ((a, b).1 ≠ k) = true := by simp [h]
      rw [hd, if_pos rfl, List.lookup_cons, List.lookup_cons, ih]
      by_cases h2 : id = a
      · subst h2; simp [h]
      · have : (id == a) = false := by simpa using h2
        simp [this]

theorem handlers_Get_Set (hs : handlers) (l l' : location) (h : Handler) :
    (hs.Set l h).Get l' = if l' = l then some h else hs.Get l' := by
  unfold handlers.Get handlers.Set
  rw [List.lookup_cons, handlers_lookup_filter_ne]
  by_cases hl : l' = l
  · subst hl; simp
  · have : (l' == l) = false := by simpa using hl
    simp [this, hl]

theorem handlers_Set_Set (hs : handlers) (l : location) (h g : Handler) :
    (hs.Set l h).Set l g = hs.Set l g := by
  simp [handlers.Set, List.filter_cons, List.filter_filter]

theorem handlers_Delete_Set (hs : handlers) (l : location) (h : Handler) :
    (hs.Set l h).Delete l = hs.Delete l := by
  simp [handlers.Set, handlers.Delete, List.filter_cons, List.filter_filter]

theorem handlers_mem_List_Delete (hs : handlers) (name method x : Bytes) :
    x ∈ (hs.Delete { namespace_ := name, method := method }).List name ↔
      x ∈ hs.List name ∧ x ≠ method := by
  simp only [handlers.List, handlers.Delete, List.mem_map, List.mem_filter]
  constructor
  · rintro ⟨p, ⟨⟨hp, hne⟩, hns⟩, rfl⟩
    refine ⟨⟨p, ⟨hp, hns⟩, rfl⟩, ?_⟩
    intro hm
    simp only [decide_eq_true_eq] at hne hns
    apply hne
    obtain ⟨l, hh⟩ := p
    obtain ⟨a, b⟩ := l
    simp only at hns hm
    simp [hns, hm]
  · rintro ⟨⟨p, ⟨hp, hns⟩, rfl⟩, hne⟩
    refine ⟨p, ⟨⟨hp, ?_⟩, hns⟩, rfl⟩
    simp only [decide_eq_true_eq]
    intro he
    apply hne
    rw [he]

/-- After `Set` on a key the registry holds one entry for it, and `List`
names its method once. -/
theorem handlers_Set_once (hs : handlers) (name method : Bytes) (h : Handler) :
    ((hs.Set { namespace_ := name, method := method } h).m.filter
        (fun p => p.1 = { namespace_ := name, method := method })).length = 1 ∧
      ((hs.Set { namespace_ := name, method := method } h).List name).count method = 1 := by
  have h1 : ∀ es : List (location × Handler),
      (es.filter (fun p => p.1 ≠ { namespace_ := name, method := method })).filter
        (fun p => p.1 = { namespace_ := name, method := method }) = [] := by
    intro es
    rw [List.filter_filter, List.filter_eq_nil_iff]
    intro p _
    simp
  have h2 : ∀ es : List (location × Handler),
      (((es.filter (fun p => p.1 ≠ { namespace_ := name, method := method })).filter
        (fun p => p.1.namespace_ = name)).map (fun p => p.1.method)).count method = 0 := by
    intro es
    rw [List.count_eq_zero]
    simp only [List.mem_map, List.mem_filter, decide_eq_true_eq, not_exists, not_and]
    rintro ⟨l, hh⟩ ⟨⟨_, hne⟩, hns⟩ hm
    apply hne
    obtain ⟨a, b⟩ := l
    simp only at hns hm
    simp [hns, hm]
  constructor
  · simp only [handlers.Set, List.filter_cons, decide_True, if_true, h1, List.length_singleton]
  · simp only [handlers.List, handlers.Set, List.filter_cons, decide_True, if_true,
      List.map_cons, List.count_cons_self, h2]

theorem Namespace_On_ok (name : Bytes) (hs hs1 : handlers) (method : Bytes) (f : Value)
    (h : Namespace.On name hs method f = some (hs1, none)) :
    ∃ hf, NewHandler f = some (.ok hf) ∧
      hs1 = hs.Set { namespace_ := name, method := method } hf := by
  unfold Namespace.On at h
  cases hn : NewHandler f with
  | none => rw [hn] at h; cases h
  | some r =>
    rw [hn] at h
    cases r with
    | error e => cases h
    | ok hf =>
      simp only [Option.some.injEq, Prod.mk.injEq, and_true] at h
      exact ⟨hf, rfl, h.symm⟩

/-! ## Lemmas: binding the arguments, the path and `Close` -/

/-- The loop of `getFunctionCallArgs` for a handler that is not variadic, when
each element decodes: it binds the elements in order. -/
theorem callArgsLoop_bind {Val : Type} (u : Unmarshal Val) (h : Handler) (parts : List Bytes)
    (vals : List Val) (hv : h.Variadic = false)
    (hdec : ∀ i, i < vals.length → ∃ t part v, h.args.get? i = some t ∧
      parts.get? i = some part ∧ u.value t part = .ok v ∧ vals.get? i = some v) :
    ∀ n c, c + n = vals.length →
      callArgsLoop u h parts n c (vals.take c) = some (vals, none) := by
  intro n
  induction n with
  | zero =>
    intro c hc
    simp only [Nat.add_zero] at hc
    simp [callArgsLoop, hc]
  | succ n ih =>
    intro c hc
    obtain ⟨t, part, v, h1, h2, h3, h4⟩ := hdec c (by omega)
    have h5 : vals.take c ++ [v] = vals.take (c + 1) := by
      rw [List.take_succ]
      simp only [List.get?_eq_getElem?] at h4
      simp [h4]
    simp only [callArgsLoop, hv, Bool.false_eq_true, false_and, if_false, h1, h2, h3, h5]
    exact ih (c + 1) (by omega)

theorem callArgs_invalidInterface {Val : Type} (u : Unmarshal Val) (unit : Val) (h : Handler)
    (msg : Message) (parts : List Bytes) (hk : 1 ≤ h.args.length)
    (hparts : u.parts msg.Data = .ok parts) (hlt : parts.length < h.args.length) :
    getFunctionCallArgs u unit h msg =
      some ([], some (.ErrorInvalidInterface msg.Method
        (invalidInterfaceReason h.args.length parts.length))) := by
  have h0 : ¬ h.args.length = 0 := by omega
  simp only [getFunctionCallArgs, h0, if_false, hparts]
  rw [if_pos (by omega)]

theorem callArgs_bound {Val : Type} (u : Unmarshal Val) (unit : Val) (h : Handler)
    (msg : Message) (parts : List Bytes) (vals : List Val) (hk : 1 ≤ h.args.length)
    (hparts : u.parts msg.Data = .ok parts) (hge : h.args.length ≤ parts.length)
    (hv : h.Variadic = false) (hlen : vals.length = h.args.length)
    (hdec : ∀ i, i < h.args.length → ∃ t part v, h.args.get? i = some t ∧
      parts.get? i = some part ∧ u.value t part = .ok v ∧ vals.get? i = some v) :
    getFunctionCallArgs u unit h msg = some (vals, none) := by
  have h0 : ¬ h.args.length = 0 := by omega
  have h1 : ¬ h.args.length > parts.length := by omega
  have h2 : (if h.args.length < parts.length ∧ h.Variadic = false then h.args.length
      else parts.length) = vals.length := by
    split_ifs with hc
    · exact hlen.symm
    · rw [hv] at hc
      simp only [and_true, not_lt] at hc
      omega
  simp only [getFunctionCallArgs, h0, if_false, hparts, h1, h2]
  have := callArgsLoop_bind u h parts vals hv (by rw [hlen]; exact hdec) vals.length 0 (by simp)
  simpa using this

/-- No text ends with `/socket.io` and with `/socket.io/`: `dial` always
appends. -/
theorem dialPath_eq (path : Bytes) : dialPath path = path ++ ascii "/socket.io/" := by
  unfold dialPath
  split_ifs with h
  · rfl
  · exfalso
    simp only [Bool.or_eq_true, Bool.not_eq_true', not_or, Bool.not_eq_false] at h
    obtain ⟨h1, h2⟩ := h
    simp only [hasSuffix, Bool.and_eq_true, decide_eq_true_eq] at h1 h2
    have e1 := congrArg List.getLast? h1.2
    have e2 := congrArg List.getLast? h2.2
    have l1 : (ascii "/socket.io").length = 10 := by decide
    have l2 : (ascii "/socket.io/").length = 11 := by decide
    have g1 : (ascii "/socket.io").getLast? = some 111 := by decide
    have g2 : (ascii "/socket.io/").getLast? = some 47 := by decide
    rw [List.getLast?_drop, g1, if_neg (by omega)] at e1
    rw [List.getLast?_drop, g2, if_neg (by omega)] at e2
    rw [e1] at e2
    cases e2

theorem Client.Close_eq (c : Client) :
    c.Close = Client.callLoopEvent
      { c with connCloseCalls := c.connCloseCalls + 1, ctxCancelCalls := c.ctxCancelCalls + 1,
               done := true } defaultNamespace OnDisconnect := by
  simp [Client.Close, lenDone]

theorem Client.callLoopEvent_fields (c : Client) (ns event : Bytes) :
    (c.callLoopEvent ns event).connCloseCalls = c.connCloseCalls ∧
      (c.callLoopEvent ns event).ctxCancelCalls = c.ctxCancelCalls ∧
      (c.callLoopEvent ns event).handlers = c.handlers := by
  unfold Client.callLoopEvent
  cases c.handlers.Get { namespace_ := ns, method := event } <;> exact ⟨rfl, rfl, rfl⟩

/-! ## The claims -/

/-- C1: for a namespace `ns` that is empty or begins with `/` and holds
neither `,` nor `"`, a method `m` without `"` and a non-empty remainder `r`,
`Decode` of `42` + `ns` + (`,` when `ns` is not empty) + `["` + `m` + `",` + `r`
succeeds with kind Emit, namespace `ns`, method `m`, data `[` + `r`, ack id 0
and the whole input as source. -/
theorem C1_decode_event_frame (ns m r : Bytes) (hns : wireNamespace ns)
    (hm : ∀ b ∈ m, b ≠ chQuote) (hr : r ≠ []) :
    Decode (eventFrame ns m r) =
      some (some { Namespace := ns, Method := m, Type_ := MessageTypeEmit, AckID := 0,
                   Data := chLBracket :: r, Source := eventFrame ns m r }, none) :=
  Decode_eventFrame ns m r (wireNamespace_bytes ns hns) hm hr

/-- C1 at the frame of `TestDecodeMessageWithNamespace`. -/
theorem C1_decode_event_frame_witness :
    wireNamespace (ascii "/shell") ∧ (∀ b ∈ ascii "stdout", b ≠ chQuote) ∧
      ascii " \"$ ls\"]" ≠ [] ∧
      Decode (ascii "42/shell,[\"stdout\", \"$ ls\"]") =
        some (some { Namespace := ascii "/shell", Method := ascii "stdout",
                     Type_ := MessageTypeEmit, AckID := 0, Data := ascii "[ \"$ ls\"]",
                     Source := ascii "42/shell,[\"stdout\", \"$ ls\"]" }, none) :=
  ⟨by decide, by decide, by decide,
    C1_decode_event_frame (ascii "/shell") (ascii "stdout") (ascii " \"$ ls\"]")
      (by decide) (by decide) (by decide)⟩

/-- C2: `Decode` returns no message and `ErrorWrongMessageType` exactly when
the input is empty, or its first byte is none of `0` to `4`, or its first byte
is `4` and none of `0` to `4` follows; whenever `Decode` returns another
result with an error, that error is a different one. -/
theorem C2_decode_wrong_message_type (source : Bytes) :
    (Decode source = some (none, some .ErrorWrongMessageType) ↔ unrecognisedFrame source) ∧
      ∀ (msg : Option Message) (err : Error),
        Decode source = some (msg, some err) → ¬ unrecognisedFrame source →
          err ≠ .ErrorWrongMessageType := by
  refine ⟨⟨Decode_wrongType_inv source none, Decode_unrecognised source⟩, ?_⟩
  intro msg err h hu he
  subst he
  exact hu (Decode_wrongType_inv source msg h)

/-- C2 at the frame `42"`, which fails with `ErrorWrongPacket` (and a message
that is not nil). -/
theorem C2_decode_wrong_message_type_witness :
    Decode (ascii "42\"") =
        some (some { Type_ := MessageTypeEmit, Source := ascii "42\"" },
          some .ErrorWrongPacket) ∧
      ¬ unrecognisedFrame (ascii "42\"") ∧ Error.ErrorWrongPacket ≠ .ErrorWrongMessageType :=
  ⟨by decide, by decide,
    (C2_decode_wrong_message_type (ascii "42\"")).2
      (some { Type_ := MessageTypeEmit, Source := ascii "42\"" }) .ErrorWrongPacket
      (by decide) (by decide)⟩

/-- C3: `Decode("40")` is of kind Empty with method "connection" and the
empty namespace, and for a namespace `ns` that begins with `/` and holds
neither `,` nor `"`, `Decode("40" + ns + ",")` is of kind Empty with method
"connection" and namespace `ns`. -/
theorem C3_decode_connect_frame :
    Decode (ascii "40") =
        some (some { Namespace := [], Method := OnConnection, Type_ := MessageTypeEmpty,
                     AckID := 0, Data := [], Source := ascii "40" }, none) ∧
      ∀ ns : Bytes, ns.head? = some 47 → (∀ b ∈ ns, b ≠ chComma ∧ b ≠ chQuote) →
        Decode (ascii "40" ++ ns ++ [chComma]) =
          some (some { Namespace := ns, Method := OnConnection, Type_ := MessageTypeEmpty,
                       AckID := 0, Data := [], Source := ascii "40" ++ ns ++ [chComma] },
            none) := by
  refine ⟨by decide, ?_⟩
  intro ns _ hns
  have h40 : ascii "40" = [52, 48] := by decide
  have e : ascii "40" ++ ns ++ [chComma] = 52 :: 48 :: (ns ++ chComma :: []) := by
    simp [h40]
  rw [e, Decode_empty _ (by simp), extractNamespace_comma ns [] hns]
  rfl

/-- C3 at the frame of `TestDecodeEmptyMessageWithNamespace`. -/
theorem C3_decode_connect_frame_witness :
    (ascii "/subscribe/project/service/container").head? = some 47 ∧
      (∀ b ∈ ascii "/subscribe/project/service/container", b ≠ chComma ∧ b ≠ chQuote) ∧
      Decode (ascii "40/subscribe/project/service/container,") =
        some (some { Namespace := ascii "/subscribe/project/service/container",
                     Method := ascii "connection", Type_ := MessageTypeEmpty, AckID := 0,
                     Data := [], Source := ascii "40/subscribe/project/service/container," },
          none) :=
  ⟨by decide, by decide,
    C3_decode_connect_frame.2 (ascii "/subscribe/project/service/container")
      (by decide) (by decide)⟩

/-- C4, as stated, fails: with ack id 7 and the array `[1,2]` the text up to
the `,` is taken for a namespace and `Decode` returns `ErrorWrongPacket`; and
an ack id of 2^63 does not fit the `int` that `Atoi` returns. -/
theorem C4_decode_ack_response_counterexample :
    (ascii "[1,2]").head? = some chLBracket ∧
      Decode (ascii "43" ++ itoaNat 7 ++ ascii "[1,2]") = some (none, some .ErrorWrongPacket) ∧
      (ascii "[\"ok\"]").head? = some chLBracket ∧
      Decode (ascii "43" ++ itoaNat (2 ^ 63) ++ ascii "[\"ok\"]") =
        some (none, some (.NumError (itoaNat (2 ^ 63)) .ErrRange)) := by
  decide

/-- C4, amended: for every `n` below 2^63 and every text `a` that begins
with `[` and in which a `"` comes before any `,`, `Decode` of `43` + the
decimal digits of `n` + `a` succeeds with kind AckResponse, ack id `n`, the
empty namespace and data `a`. -/
theorem C4_decode_ack_response (n : Nat) (hn : n < 2 ^ 63) (a pre rest : Bytes)
    (ha : a = chLBracket :: (pre ++ chQuote :: rest))
    (hpre : ∀ b ∈ pre, b ≠ chComma ∧ b ≠ chQuote) :
    Decode (ascii "43" ++ itoaNat n ++ a) =
      some (some { Namespace := [], Method := [], Type_ := MessageTypeAckResponse,
                   AckID := (n : Int), Data := a, Source := ascii "43" ++ itoaNat n ++ a },
        none) := by
  subst ha
  exact Decode_ackFrame n hn pre rest hpre

/-- C4, amended, at `4312["JFK",1]`. -/
theorem C4_decode_ack_response_witness :
    12 < 2 ^ 63 ∧ ascii "[\"JFK\",1]" = chLBracket :: ([] ++ chQuote :: ascii "JFK\",1]") ∧
      (∀ b ∈ ([] : Bytes), b ≠ chComma ∧ b ≠ chQuote) ∧
      Decode (ascii "43" ++ itoaNat 12 ++ ascii "[\"JFK\",1]") =
        some (some { Namespace := [], Method := [], Type_ := MessageTypeAckResponse,
                     AckID := 12, Data := ascii "[\"JFK\",1]",
                     Source := ascii "43" ++ itoaNat 12 ++ ascii "[\"JFK\",1]" }, none) :=
  ⟨by decide, by decide, by decide,
    C4_decode_ack_response 12 (by decide) (ascii "[\"JFK\",1]") [] (ascii "JFK\",1]")
      (by decide) (by decide)⟩

/-- C5: for an Emit message whose namespace is empty or begins with `/` and
holds neither `,` nor `"`, whose method has itself between two quotes as its
JSON form, and for an argument list (absent, empty or not) that encodes,
`Encode` succeeds and `Decode` of the packet succeeds with kind Emit, the
namespace, the method, and as data the compact JSON array of the arguments
alone. -/
theorem C5_encode_decode_roundtrip (msg : Message) (args : Option (List Bytes))
    (ht : msg.Type_ = MessageTypeEmit) (hns : wireNamespace msg.Namespace)
    (hm : jsonString msg.Method = chQuote :: msg.Method ++ [chQuote]) :
    ∃ packet, Encode msg (args.map (List.map .ok)) = .ok packet ∧
      Decode packet =
        some (some { Namespace := msg.Namespace, Method := msg.Method,
                     Type_ := MessageTypeEmit, AckID := 0, Data := jsonArray (args.getD []),
                     Source := packet }, none) :=
  Decode_Encode_emit msg args ht (wireNamespace_bytes _ hns) hm

/-- C5 at the event `stdout` of the namespace `/shell` with the one argument
`"$ ls"`. -/
theorem C5_encode_decode_roundtrip_witness :
    MessageTypeEmit = MessageTypeEmit ∧ wireNamespace (ascii "/shell") ∧
      jsonString (ascii "stdout") = chQuote :: ascii "stdout" ++ [chQuote] ∧
      ∃ packet,
        Encode { Type_ := MessageTypeEmit, Namespace := ascii "/shell", Method := ascii "stdout" }
            (some [.ok (ascii "\"$ ls\"")]) = .ok packet ∧
          Decode packet =
            some (some { Namespace := ascii "/shell", Method := ascii "stdout",
                         Type_ := MessageTypeEmit, AckID := 0,
                         Data := jsonArray [ascii "\"$ ls\""], Source := packet }, none) :=
  ⟨rfl, by decide, by decide,
    C5_encode_decode_roundtrip
      { Type_ := MessageTypeEmit, Namespace := ascii "/shell", Method := ascii "stdout" }
      (some [ascii "\"$ ls\""]) rfl (by decide) (by decide)⟩

/-- C6: for a message of kind Emit or AckRequest and a non-absent argument
list that encodes, `Encode` returns `42`, then the ack id in decimal (for
AckRequest only), the namespace, a `,` when the namespace is not empty, and
the JSON array of the method followed by the arguments; this for every
message, whatever `json.Marshal` writes for the method, which is the first
element of the array. -/
theorem C6_encode_event_format (marshalString : Bytes → Bytes) (msg : Message)
    (encs : List Bytes)
    (ht : msg.Type_ = MessageTypeEmit ∨ msg.Type_ = MessageTypeAckRequest) :
    EncodeWith marshalString msg (some (encs.map .ok)) =
      .ok (ascii "42" ++ (if msg.Type_ = MessageTypeAckRequest then itoa msg.AckID else []) ++
        msg.Namespace ++ (if msg.Namespace = [] then [] else [chComma]) ++
        jsonArray (marshalString msg.Method :: encs)) :=
  EncodeWith_event marshalString msg encs ht

/-- C6 at an AckRequest with ack id 12 on `/a`, method `<m>`, arguments `1`
and `true`, with the string encoder of `encoding/json`: the packet
`4212/a,["<m>",1,true]`. -/
theorem C6_encode_event_format_witness :
    (MessageTypeAckRequest = MessageTypeEmit ∨ MessageTypeAckRequest = MessageTypeAckRequest) ∧
      Encode { Type_ := MessageTypeAckRequest, AckID := 12, Namespace := ascii "/a",
               Method := ascii "<m>" } (some [.ok (ascii "1"), .ok (ascii "true")]) =
        .ok (ascii "4212/a,[\"\\u003cm\\u003e\",1,true]") :=
  ⟨by decide,
    C6_encode_event_format jsonString
      { Type_ := MessageTypeAckRequest, AckID := 12, Namespace := ascii "/a",
        Method := ascii "<m>" } [ascii "1", ascii "true"] (by decide)⟩

/-- C7, where the claim fails: `Encode` of the AckResponse message with ack
id 7 and the value `"ok"` as argument is `437`, not `437["ok"]`, and with the
value `"no"` as argument it is the same packet. -/
theorem C7_encode_ack_response_counterexample :
    Encode { Type_ := MessageTypeAckResponse, AckID := 7 } (some [.ok (ascii "\"ok\"")]) ≠
        .ok (ascii "43" ++ itoa 7 ++ jsonArray [ascii "\"ok\""]) ∧
      Encode { Type_ := MessageTypeAckResponse, AckID := 7 } (some [.ok (ascii "\"ok\"")]) =
        .ok (ascii "437") ∧
      Encode { Type_ := MessageTypeAckResponse, AckID := 7 } (some [.ok (ascii "\"no\"")]) =
        Encode { Type_ := MessageTypeAckResponse, AckID := 7 } (some [.ok (ascii "\"ok\"")]) := by
  decide

/-- C7 as amended: `Encode` of a message of kind AckResponse returns `43`,
the ack id in decimal and the data of the message, whatever the arguments
are (absent, encoding or not): the packet does not depend on them. -/
theorem C7_encode_ack_response (msg : Message) (args : Option (List Arg))
    (ht : msg.Type_ = MessageTypeAckResponse) :
    Encode msg args = .ok (ascii "43" ++ itoa msg.AckID ++ msg.Data) :=
  EncodeWith_ackResponse jsonString msg args ht

/-- C7 as amended, at the AckResponse with ack id 7 and data `["ok"]`, with
the value `1` as argument: the packet `437["ok"]`. -/
theorem C7_encode_ack_response_witness :
    MessageTypeAckResponse = MessageTypeAckResponse ∧
      Encode { Type_ := MessageTypeAckResponse, AckID := 7, Data := ascii "[\"ok\"]" }
          (some [.ok (ascii "1")]) = .ok (ascii "437[\"ok\"]") :=
  ⟨rfl,
    C7_encode_ack_response
      { Type_ := MessageTypeAckResponse, AckID := 7, Data := ascii "[\"ok\"]" }
      (some [.ok (ascii "1")]) rfl⟩

/-- C8: on a waiter whose counter `c` is between 0 and 2147483647, `Next`
returns `c + 1`, or 0 when `c` is 2147483647, and the value is the new
counter; on a fresh waiter the k-th call of `Next` returns `k mod 2^31`,
whatever calls of `Set`, `Load`, `Delete` and `Size` come in between. -/
theorem C8_next_wraps :
    (∀ w : Waiter, 0 ≤ w.counter → w.counter ≤ MaxInt32 →
        w.Next.1 = (if w.counter < MaxInt32 then w.counter + 1 else 0) ∧
          w.Next.2.counter = w.Next.1) ∧
      ∀ ops : List WaiterOp,
        Waiter.nextValues {} ops =
          (List.range (ops.count .Next)).map (fun i => ((i + 1 : Nat) : Int) % 2 ^ 31) := by
  refine ⟨fun w h0 h1 => ⟨(Waiter.Next_value w h0 h1).1, (Waiter.Next_value w h0 h1).2.1⟩, ?_⟩
  intro ops
  have := Waiter.nextValues_from ops {} 0 (by rfl)
  simpa using this

/-- C8 at the counter of `TestWaiterLimit`, one call before the wrap. -/
theorem C8_next_wraps_witness :
    (0 : Int) ≤ MaxInt32 ∧ MaxInt32 ≤ MaxInt32 ∧
      (Waiter.Next { counter := MaxInt32 }).1 = 0 ∧
      (Waiter.Next { counter := MaxInt32 }).2.counter = 0 :=
  ⟨by decide, by decide,
    (C8_next_wraps.1 { counter := MaxInt32 } (by decide) (by decide)).1,
    (C8_next_wraps.1 { counter := MaxInt32 } (by decide) (by decide)).2⟩

/-- C9: after any list of calls on a fresh waiter, `Load(id)` returns
`(s, true)` exactly when the last `Set` or `Delete` on `id` was `Set(id, s)`
and not-found otherwise, and `Size` is the number of ids present; `Set` on an
id that is present keeps `Size`, `Delete` on an id that is absent (also on a
waiter never used) changes nothing, and `Next` never changes the map. -/
theorem C9_waiter_is_finite_map (ops : List WaiterOp) :
    (∀ id, (Waiter.run {} ops).Load id =
        match specStore ops id with
        | some s => (s, true)
        | none => (0, false)) ∧
      (Waiter.run {} ops).Size = (specIds ops).length ∧
      (∀ id s, (specStore ops id).isSome = true →
        ((Waiter.run {} ops).Set id s).Size = (Waiter.run {} ops).Size) ∧
      (∀ id, specStore ops id = none → (Waiter.run {} ops).Delete id = Waiter.run {} ops) ∧
      ∀ w : Waiter, w.Next.2.message = w.message :=
  ⟨(Waiter.run_refines ops).1, (Waiter.run_refines ops).2, Waiter.Size_Set_present ops,
    Waiter.Delete_absent ops, fun _ => rfl⟩

/-- C9 after the calls of `TestWaiter` up to its `Set`: a second `Set` on id 1
keeps the size 1, and `Delete` on the absent id 3 changes nothing. -/
theorem C9_waiter_is_finite_map_witness :
    (specStore [.Next, .Set 1 0] 1).isSome = true ∧
      ((Waiter.run {} [.Next, .Set 1 0]).Set 1 7).Size = 1 ∧
      specStore [.Next, .Set 1 0] 3 = none ∧
      (Waiter.run {} [.Next, .Set 1 0]).Delete 3 = { counter := 1, message := some [(1, 0)] } :=
  ⟨by decide,
    (C9_waiter_is_finite_map [.Next, .Set 1 0]).2.2.1 1 7 (by decide),
    by decide,
    (C9_waiter_is_finite_map [.Next, .Set 1 0]).2.2.2.1 3 (by decide)⟩

/-- C10, the code where the write fails: `Ack` removes the ack id it
registered but does not return the error `e` of the write; it goes on to its
`select`, so it returns the error of the context once the context is done and
waits for ever if that never happens. -/
theorem C10_ack_send_failure_waits (w : Waiter) (name : Bytes) (e c : Error)
    (unmarshal : Bytes → Option Error) (waiter : Chan) (method : Bytes) (args : Arg) :
    (Ack w name (fun _ => some e) unmarshal waiter method args (.done c)).2 =
        .returned (some c) ∧
      (Ack w name (fun _ => some e) unmarshal waiter method args .blocked).2 = .blocked ∧
      (Ack w name (fun _ => some e) unmarshal waiter method args .blocked).1.Load w.Next.1 =
        (0, false) := by
  have hs : ∀ msg : Message, ∃ x, send name (fun _ => some e) msg (some [args]) = some x := by
    intro msg
    simp only [send]
    cases Encode { msg with Namespace := name } (some [args]) with
    | error err => exact ⟨err, rfl⟩
    | ok command => exact ⟨e, rfl⟩
  obtain ⟨x, hx⟩ := hs { Type_ := MessageTypeAckRequest, AckID := w.Next.1, Method := method }
  refine ⟨rfl, rfl, ?_⟩
  simp only [Ack, hx, Waiter.Load, Waiter.Delete, Waiter.Set, mapDelete, mapIndex,
    Option.map_some', lookup_filter_ne, if_true]

/-- C11, as stated, fails: with `news` registered on the default namespace,
`On("news", f)` and `Off("news")` leave no listener, where there was one. -/
theorem C11_on_off_counterexample :
    Namespace.On [] { m := [({ namespace_ := [], method := ascii "news" },
        { Func := { kind := .Func }, Out := false, Variadic := false, args := [] })] }
        (ascii "news") { kind := .Func } =
      some ({ m := [({ namespace_ := [], method := ascii "news" },
        { Func := { kind := .Func }, Out := false, Variadic := false, args := [] })] }, none) ∧
      Namespace.Listeners [] { m := [({ namespace_ := [], method := ascii "news" },
        { Func := { kind := .Func }, Out := false, Variadic := false, args := [] })] } =
        [ascii "news"] ∧
      Namespace.Listeners [] (Namespace.Off [] { m := [({ namespace_ := [], method := ascii "news" },
        { Func := { kind := .Func }, Out := false, Variadic := false, args := [] })] }
        (ascii "news")) = [] := by
  decide

/-- C11, amended: after `On(k, f)` with a valid callback and `Off(k)` on a
namespace, the methods that `Listeners()` returns on it are those it returned
before the `On`, without `k`; so they are the same when `k` was not registered
on that namespace before. -/
theorem C11_on_off_listeners (name : Bytes) (hs hs1 : handlers) (k : Bytes) (f : Value)
    (h : Namespace.On name hs k f = some (hs1, none)) :
    (∀ x, x ∈ Namespace.Listeners name (Namespace.Off name hs1 k) ↔
        x ∈ Namespace.Listeners name hs ∧ x ≠ k) ∧
      (k ∉ Namespace.Listeners name hs →
        ∀ x, x ∈ Namespace.Listeners name (Namespace.Off name hs1 k) ↔
          x ∈ Namespace.Listeners name hs) := by
  obtain ⟨hf, _, rfl⟩ := Namespace_On_ok name hs hs1 k f h
  have h1 : ∀ x, x ∈ Namespace.Listeners name
      (Namespace.Off name (hs.Set { namespace_ := name, method := k } hf) k) ↔
      x ∈ Namespace.Listeners name hs ∧ x ≠ k := by
    intro x
    simp only [Namespace.Listeners, Namespace.Off, handlers_Delete_Set]
    exact handlers_mem_List_Delete hs name k x
  refine ⟨h1, fun hk x => ?_⟩
  rw [h1]
  exact ⟨fun hx => hx.1, fun hx => ⟨hx, fun e => hk (e ▸ hx)⟩⟩

/-- C11, amended, on a registry that holds `chat`: after `On("news", f)` and
`Off("news")` the listeners are `chat` again. -/
theorem C11_on_off_listeners_witness :
    Namespace.On [] { m := [({ namespace_ := [], method := ascii "chat" },
        { Func := { kind := .Func }, Out := false, Variadic := false, args := [] })] }
        (ascii "news") { kind := .Func } =
      some ({ m := [({ namespace_ := [], method := ascii "news" },
          { Func := { kind := .Func }, Out := false, Variadic := false, args := [] }),
        ({ namespace_ := [], method := ascii "chat" },
          { Func := { kind := .Func }, Out := false, Variadic := false, args := [] })] }, none) ∧
      ∀ x, x ∈ Namespace.Listeners []
          (Namespace.Off [] { m := [({ namespace_ := [], method := ascii "news" },
              { Func := { kind := .Func }, Out := false, Variadic := false, args := [] }),
            ({ namespace_ := [], method := ascii "chat" },
              { Func := { kind := .Func }, Out := false, Variadic := false, args := [] })] }
            (ascii "news")) ↔
        x ∈ Namespace.Listeners [] { m := [({ namespace_ := [], method := ascii "chat" },
          { Func := { kind := .Func }, Out := false, Variadic := false, args := [] })] } ∧
          x ≠ ascii "news" :=
  ⟨by decide,
    (C11_on_off_listeners [] { m := [({ namespace_ := [], method := ascii "chat" },
        { Func := { kind := .Func }, Out := false, Variadic := false, args := [] })] }
      _ (ascii "news") { kind := .Func } (by decide)).1⟩

/-- C12: after `On(k, f)` and then `On(k, g)` with valid callbacks on a
namespace, the registry holds one handler for the key, the one built from
`g`; `Listeners()` on the namespace names `k` once; and the handler under
every other key is the one that was there before. -/
theorem C12_one_handler_per_key (name : Bytes) (hs hs1 hs2 : handlers) (k : Bytes)
    (f g : Value) (h1 : Namespace.On name hs k f = some (hs1, none))
    (h2 : Namespace.On name hs1 k g = some (hs2, none)) :
    ∃ hg, NewHandler g = some (.ok hg) ∧
      hs2.Get { namespace_ := name, method := k } = some hg ∧
      (hs2.m.filter (fun p => p.1 = { namespace_ := name, method := k })).length = 1 ∧
      (Namespace.Listeners name hs2).count k = 1 ∧
      ∀ l, l ≠ { namespace_ := name, method := k } → hs2.Get l = hs.Get l := by
  obtain ⟨hf, _, rfl⟩ := Namespace_On_ok name hs hs1 k f h1
  obtain ⟨hg, hgok, rfl⟩ := Namespace_On_ok name _ hs2 k g h2
  refine ⟨hg, hgok, ?_, ?_, ?_, ?_⟩
  · rw [handlers_Get_Set]; simp
  · rw [handlers_Set_Set]; exact (handlers_Set_once hs name k hg).1
  · rw [handlers_Set_Set]; exact (handlers_Set_once hs name k hg).2
  · intro l hl
    rw [handlers_Get_Set, handlers_Get_Set]
    simp [hl]

/-- C12 on a fresh registry, with a `func()` and then a `func(string) int`
for `news`. -/
theorem C12_one_handler_per_key_witness :
    Namespace.On [] {} (ascii "news") { kind := .Func } =
        some ({ m := [({ namespace_ := [], method := ascii "news" },
          { Func := { kind := .Func }, Out := false, Variadic := false, args := [] })] }, none) ∧
      Namespace.On [] { m := [({ namespace_ := [], method := ascii "news" },
          { Func := { kind := .Func }, Out := false, Variadic := false, args := [] })] }
          (ascii "news") { kind := .Func, type_ := { ins := [{ kind := .String }], numOut := 1 } } =
        some ({ m := [({ namespace_ := [], method := ascii "news" },
          { Func := { kind := .Func, type_ := { ins := [{ kind := .String }], numOut := 1 } },
            Out := true, Variadic := false, args := [{ kind := .String }] })] }, none) ∧
      ∃ hg, NewHandler { kind := .Func, type_ := { ins := [{ kind := .String }], numOut := 1 } } =
          some (.ok hg) ∧
        handlers.Get { m := [({ namespace_ := [], method := ascii "news" },
          { Func := { kind := .Func, type_ := { ins := [{ kind := .String }], numOut := 1 } },
            Out := true, Variadic := false, args := [{ kind := .String }] })] }
          { namespace_ := [], method := ascii "news" } = some hg ∧
        (List.filter (fun p => p.1 = { namespace_ := [], method := ascii "news" })
          (handlers.m { m := [({ namespace_ := [], method := ascii "news" },
          { Func := { kind := .Func, type_ := { ins := [{ kind := .String }], numOut := 1 } },
            Out := true, Variadic := false, args := [{ kind := .String }] })] })).length = 1 ∧
        (Namespace.Listeners [] { m := [({ namespace_ := [], method := ascii "news" },
          { Func := { kind := .Func, type_ := { ins := [{ kind := .String }], numOut := 1 } },
            Out := true, Variadic := false, args := [{ kind := .String }] })] }).count
            (ascii "news") = 1 ∧
        ∀ l, l ≠ { namespace_ := [], method := ascii "news" } →
          handlers.Get { m := [({ namespace_ := [], method := ascii "news" },
          { Func := { kind := .Func, type_ := { ins := [{ kind := .String }], numOut := 1 } },
            Out := true, Variadic := false, args := [{ kind := .String }] })] } l =
            handlers.Get {} l :=
  ⟨by decide, by decide,
    C12_one_handler_per_key [] {}
      { m := [({ namespace_ := [], method := ascii "news" },
          { Func := { kind := .Func }, Out := false, Variadic := false, args := [] })] }
      { m := [({ namespace_ := [], method := ascii "news" },
          { Func := { kind := .Func, type_ := { ins := [{ kind := .String }], numOut := 1 } },
            Out := true, Variadic := false, args := [{ kind := .String }] })] }
      (ascii "news") { kind := .Func }
      { kind := .Func, type_ := { ins := [{ kind := .String }], numOut := 1 } }
      (by decide) (by decide)⟩

/-- C13: for a callback as `reflect` shows it, `NewHandler` returns a handler
and no error exactly when the value is a function with at most one result,
every parameter kind is permitted and, if it is variadic, the elements of the
last parameter are of kind interface; a value of another kind `k` is rejected
with `ErrorNotFunction` of `k`; in a function with at most one result the
first parameter of a kind that is not permitted (chan, func, uintptr and
unsafe pointer are such kinds) is rejected with `ErrorArgument` of that kind;
and an accepted handler has `Out` true exactly when the function has one
result. -/
theorem C13_new_handler_validation (f : Value) (hwf : f.type_.wellFormed) :
    ((∃ h, NewHandler f = some (.ok h)) ↔
        (f.kind = .Func ∧ f.type_.numOut ≤ 1 ∧ (∀ t ∈ f.type_.ins, permittedKind t.kind) ∧
          (f.type_.isVariadic = true →
            ∀ last, f.type_.ins.getLast? = some last → last.elemKind = .Interface))) ∧
      (f.kind ≠ .Func → NewHandler f = some (.error (.ErrorNotFunction f.kind))) ∧
      (∀ k ∈ [Kind.Chan, .Func, .Uintptr, .UnsafePointer],
        ¬ permittedKind k ∧ checkParamKind k = some (.ErrorArgument k)) ∧
      (f.kind = .Func → f.type_.numOut ≤ 1 → ∀ pre t post, f.type_.ins = pre ++ t :: post →
        (∀ x ∈ pre, permittedKind x.kind) → ¬ permittedKind t.kind →
        NewHandler f = some (.error (.ErrorArgument t.kind))) ∧
      ∀ h, NewHandler f = some (.ok h) → (h.Out = true ↔ f.type_.numOut = 1) := by
  refine ⟨⟨?_, ?_⟩, ?_, by decide, ?_, ?_⟩
  · rintro ⟨h, hh⟩
    exact ((NewHandler_ok_iff f hwf h).mp hh).1
  · intro hc
    exact ⟨_, (NewHandler_ok_iff f hwf _).mpr ⟨hc, rfl⟩⟩
  · intro hk
    simp [NewHandler, hk]
  · intro hk hn pre t post hins hpre ht
    have hn' : ¬ f.type_.numOut > 1 := by omega
    simp [NewHandler, hk, hn', hins, checkHandlerInputParams_first pre post t hpre ht]
  · intro h hh
    rw [((NewHandler_ok_iff f hwf h).mp hh).2]
    simp

/-- C13 at `mockHandlerStringInAndNumberOut`, a `func(string) int`. -/
theorem C13_new_handler_validation_witness :
    FuncType.wellFormed { ins := [{ kind := .String }], numOut := 1 } ∧
      NewHandler { kind := .Func, type_ := { ins := [{ kind := .String }], numOut := 1 } } =
        some (.ok { Func := { kind := .Func,
                              type_ := { ins := [{ kind := .String }], numOut := 1 } },
                    Out := true, Variadic := false, args := [{ kind := .String }] }) ∧
      (true = true ↔ (1 : Nat) = 1) :=
  ⟨by decide, by decide,
    (C13_new_handler_validation
      { kind := .Func, type_ := { ins := [{ kind := .String }], numOut := 1 } }
      (by decide)).2.2.2.2
      { Func := { kind := .Func, type_ := { ins := [{ kind := .String }], numOut := 1 } },
        Out := true, Variadic := false, args := [{ kind := .String }] } (by decide)⟩

/-- C14: for a handler with `k ≥ 1` parameters and a message whose data is
an array of `p` elements, `getFunctionCallArgs` fails with
`ErrorInvalidInterface` of the method of the message when `p < k`, variadic or
not; when `p ≥ k`, the handler is not variadic and each of the first `k`
elements decodes into its parameter type, it returns the `k` decoded values in
order and leaves the other elements alone. -/
theorem C14_argument_binding {Val : Type} (u : Unmarshal Val) (unit : Val) (h : Handler)
    (msg : Message) (parts : List Bytes) (hk : 1 ≤ h.args.length)
    (hparts : u.parts msg.Data = .ok parts) :
    (parts.length < h.args.length →
        getFunctionCallArgs u unit h msg =
          some ([], some (.ErrorInvalidInterface msg.Method
            (invalidInterfaceReason h.args.length parts.length)))) ∧
      (h.args.length ≤ parts.length → h.Variadic = false →
        ∀ vals : List Val, vals.length = h.args.length →
          (∀ i, i < h.args.length → ∃ t part v, h.args.get? i = some t ∧
            parts.get? i = some part ∧ u.value t part = .ok v ∧ vals.get? i = some v) →
          getFunctionCallArgs u unit h msg = some (vals, none) ∧
            vals.length = min parts.length h.args.length) := by
  refine ⟨fun hlt => callArgs_invalidInterface u unit h msg parts hk hparts hlt, ?_⟩
  intro hge hv vals hlen hdec
  exact ⟨callArgs_bound u unit h msg parts vals hk hparts hge hv hlen hdec, by omega⟩

/-- C14 at a handler `func(int, string)` and a message with the three
elements `1`, `"a"` and `true`; a value is shown by its JSON text. -/
theorem C14_argument_binding_witness :
    getFunctionCallArgs
        { parts := fun _ => .ok [ascii "1", ascii "\"a\"", ascii "true"],
          value := fun _ b => .ok b, variadic := fun _ _ => .ok [] }
        (ascii "null")
        { Func := { kind := .Func, type_ := { ins := [{ kind := .Int }, { kind := .String }] } },
          Out := false, Variadic := false, args := [{ kind := .Int }, { kind := .String }] }
        { Method := ascii "m", Data := ascii "[1,\"a\",true]" } =
      some ([ascii "1", ascii "\"a\""], none) ∧
      [ascii "1", ascii "\"a\""].length = min 3 2 :=
  (C14_argument_binding
    { parts := fun _ => .ok [ascii "1", ascii "\"a\"", ascii "true"],
      value := fun _ b => .ok b, variadic := fun _ _ => .ok [] }
    (ascii "null")
    { Func := { kind := .Func, type_ := { ins := [{ kind := .Int }, { kind := .String }] } },
      Out := false, Variadic := false, args := [{ kind := .Int }, { kind := .String }] }
    { Method := ascii "m", Data := ascii "[1,\"a\",true]" }
    [ascii "1", ascii "\"a\"", ascii "true"] (by decide) rfl).2 (by decide) rfl
    [ascii "1", ascii "\"a\""] rfl
    (by
      intro i hi
      rcases i with _ | _ | i
      · exact ⟨_, _, _, rfl, rfl, rfl, rfl⟩
      · exact ⟨_, _, _, rfl, rfl, rfl, rfl⟩
      · exact absurd hi (by simp))

/-- C15, the code on a second call: the guard of `Close` never holds, so a
second `Close` closes the connection again, calls `ctxCancel` again and, when
a handler for "disconnect" is registered on the default namespace, calls it a
second time. -/
theorem C15_close_runs_again :
    (∀ c : Client,
        c.Close.Close.connCloseCalls = c.Close.connCloseCalls + 1 ∧
          c.Close.Close.ctxCancelCalls = c.Close.ctxCancelCalls + 1 ∧
          c.Close.Close ≠ c.Close) ∧
      (Client.Close { handlers := { m := [({ namespace_ := [], method := OnDisconnect },
          { Func := { kind := .Func }, Out := false, Variadic := false, args := [] })] } }).called =
        [{ namespace_ := [], method := OnDisconnect }] ∧
      (Client.Close (Client.Close { handlers := { m := [({ namespace_ := [], method := OnDisconnect },
          { Func := { kind := .Func }, Out := false, Variadic := false, args := [] })] } })).called =
        [{ namespace_ := [], method := OnDisconnect }, { namespace_ := [], method := OnDisconnect }] := by
  refine ⟨fun c => ?_, by decide, by decide⟩
  have h1 : c.Close.Close.connCloseCalls = c.Close.connCloseCalls + 1 := by
    rw [Client.Close_eq c.Close]
    exact (Client.callLoopEvent_fields _ _ _).1
  have h2 : c.Close.Close.ctxCancelCalls = c.Close.ctxCancelCalls + 1 := by
    rw [Client.Close_eq c.Close]
    exact (Client.callLoopEvent_fields _ _ _).2.1
  refine ⟨h1, h2, fun he => ?_⟩
  rw [he] at h1
  omega

/-- C16, the code on a path that ends with `/socket.io/` already: the test of
`dial` holds for every path, so the suffix is appended once more. -/
theorem C16_dial_path_always_appends :
    (∀ path : Bytes, dialPath path = path ++ ascii "/socket.io/") ∧
      hasSuffix (ascii "/socket.io/") (ascii "/socket.io/") = true ∧
      dialPath (ascii "/socket.io/") = ascii "/socket.io//socket.io/" ∧
      dialPath (ascii "/socket.io/") ≠ ascii "/socket.io/" :=
  ⟨dialPath_eq, by decide, by decide, by decide⟩

/-- C17: on every input on which `Decode` succeeds the kind is one of Open,
Close, Ping, Pong, Empty, Error, AckResponse and Emit, never AckRequest or
NamespaceConnect, and the ack id is 0 unless the kind is AckResponse; a frame
that begins with `42` is of kind Emit and takes the Emit branch of the
dispatch, and no frame takes the AckRequest branch. -/
theorem C17_decode_never_ack_request (source : Bytes) (msg : Message)
    (h : Decode source = some (some msg, none)) :
    (msg.Type_ = MessageTypeOpen ∨ msg.Type_ = MessageTypeClose ∨
        msg.Type_ = MessageTypePing ∨ msg.Type_ = MessageTypePong ∨
        msg.Type_ = MessageTypeEmpty ∨ msg.Type_ = MessageTypeError ∨
        msg.Type_ = MessageTypeAckResponse ∨ msg.Type_ = MessageTypeEmit) ∧
      msg.Type_ ≠ MessageTypeAckRequest ∧ msg.Type_ ≠ MessageTypeNamespace ∧
      (msg.Type_ ≠ MessageTypeAckResponse → msg.AckID = 0) ∧
      (∀ body, source = ascii "42" ++ body →
        msg.Type_ = MessageTypeEmit ∧ incomingHandler msg = .handleIncomingEmit) ∧
      incomingHandler msg ≠ .handleIncomingAckRequest := by
  obtain ⟨r, hr, hk⟩ := Decode_kind source
  rw [h] at hr
  cases hr
  obtain ⟨hk1, hk2⟩ := hk.2 msg rfl
  have hne : msg.Type_ ≠ MessageTypeAckRequest ∧ msg.Type_ ≠ MessageTypeNamespace := by
    rcases hk1 with c | c | c | c | c | c | c | c <;> rw [c] <;> decide
  refine ⟨hk1, hne.1, hne.2, hk2, ?_, ?_⟩
  · intro body hb
    have h42 : ascii "42" = [52, 50] := by decide
    rw [hb, h42] at h
    have ht := Decode_common_emit body msg none h
    refine ⟨ht, ?_⟩
    simp only [incomingHandler, ht]
    decide
  · rcases hk1 with c | c | c | c | c | c | c | c <;>
      simp only [incomingHandler, c] <;> decide

/-- C17 at the frame `421["m","x"]`, which carries an ack id. -/
theorem C17_decode_never_ack_request_witness :
    Decode (ascii "421[\"m\",\"x\"]") =
        some (some { Namespace := [], Method := ascii "m", Type_ := MessageTypeEmit,
                     AckID := 0, Data := ascii "[\"x\"]",
                     Source := ascii "421[\"m\",\"x\"]" }, none) ∧
      incomingHandler { Namespace := [], Method := ascii "m", Type_ := MessageTypeEmit,
                        AckID := 0, Data := ascii "[\"x\"]",
                        Source := ascii "421[\"m\",\"x\"]" } ≠ .handleIncomingAckRequest :=
  ⟨by decide,
    (C17_decode_never_ack_request (ascii "421[\"m\",\"x\"]")
      { Namespace := [], Method := ascii "m", Type_ := MessageTypeEmit,
        AckID := 0, Data := ascii "[\"x\"]", Source := ascii "421[\"m\",\"x\"]" }
      (by decide)).2.2.2.2.2⟩

/-- C18, the code at the failing input: `Decode` of `43,1[` is an AckResponse
with ack id 1 whose data is the one byte `[`; the waiter that holds a channel
for id 1 gets that text delivered, and `Ack` then panics on `ret[1:0]`. -/
theorem C18_ack_trim_out_of_range :
    Decode (ascii "43,1[") =
        some (some { Namespace := [], Method := [], Type_ := MessageTypeAckResponse,
                     AckID := 1, Data := ascii "[", Source := ascii "43,1[" }, none) ∧
      (ascii "[").length = 1 ∧
      handleIncomingAckResponse ((Waiter.Next {}).2.Set (Waiter.Next {}).1 5)
          { Namespace := [], Method := [], Type_ := MessageTypeAckResponse,
            AckID := 1, Data := ascii "[", Source := ascii "43,1[" } =
        some (5, ascii "[") ∧
      ∀ (unmarshal : Bytes → Option Error) (method : Bytes) (args : Arg),
        (Ack {} [] (fun _ => none) unmarshal 5 method args (.reply (ascii "["))).2 =
          .panicked := by
  refine ⟨by decide, by decide, by decide, ?_⟩
  intro unmarshal method args
  simp only [Ack]
  rfl

/-- C19: `Decode` returns on every byte string, with a message or an error
(or both), and the slices of `extractNamespace`, `getAckFromPacket` and
`decodePacket` are in bounds on every text, those of `getMessageType` and
`getRegularMessageType` on every text that is not empty. -/
theorem C19_decode_total (source : Bytes) :
    (∃ msg err, Decode source = some (msg, err) ∧ (msg ≠ none ∨ err ≠ none)) ∧
      (∃ r, extractNamespace source = some r) ∧
      (∃ r, getAckFromPacket source = some r) ∧
      (∃ r, decodePacket source = some r) ∧
      ∀ b, ∃ r, getMessageType (b :: source) = some r := by
  refine ⟨?_, extractNamespace_total source, getAckFromPacket_total source,
    decodePacket_total source, fun b => getMessageType_total b source⟩
  obtain ⟨r, hr, hk⟩ := Decode_kind source
  exact ⟨r.1, r.2, hr, hk.1⟩

end GoSocketIO
